import Mathlib

/-!
Verification development for the streaming chat engine and the
content-addressable attachment store of the `aipp` desktop assistant.

The Rust sources are shallowly embedded here:
* `src-tauri/src/api/llm/anthropic.rs` — `chat_stream`'s incremental frame
  decoder (buffering, frame cleaning, serde decoding, the update channel,
  cancellation), and the provider-configuration handling of `chat` /
  `chat_stream`.
* `src-tauri/src/api/attachment_api.rs` — `add_attachment_by_url` /
  `add_attachment_content` (classification, data-URI construction, SHA-256
  content hashing, dedup by hash).

Strings are modelled as `List Char`; byte streams as `List Nat` (each entry
a byte < 256).  External library behaviour that the code relies on
(`std::str::from_utf8`, `serde_json`, `sha2`, `base64`, `hex`, `mime_guess`)
is embedded faithfully for the inputs that matter to the claims.  The
persistence collaborator (`conversation_db`, not part of the sources) is
modelled from the spec where indicated.
-/

set_option maxRecDepth 200000

namespace Aipp

/-! ### Basic list utilities -/

/-- Boolean list-prefix test (used to state monotonic growth of
`cumulative_text`). -/
def isPreB : List Char → List Char → Bool
  | [], _ => true
  | _ :: _, [] => false
  | a :: as, b :: bs => a = b && isPreB as bs

/-- Index of the first occurrence of a blank-line separator `"\n\n"`
(mirrors `buffer.find("\n\n")` in `chat_stream`; the byte index of the Rust
code and the character index used here address the same text position
because `'\n'` is a one-byte character). -/
def findBlankLine : List Char → Option Nat
  | [] => none
  | [_] => none
  | a :: b :: rest =>
    if a = '\n' ∧ b = '\n' then some 0
    else (findBlankLine (b :: rest)).map (· + 1)

/-- A well-formed wire frame: no blank-line separator inside it, nonempty,
and not ending in a newline (so that appending the `"\n\n"` terminator does
not create an earlier separator). -/
def wfFrame (f : List Char) : Prop :=
  findBlankLine f = none ∧ f ≠ [] ∧ f.getLast? ≠ some '\n'

instance (f : List Char) : Decidable (wfFrame f) := by
  unfold wfFrame; infer_instance

/-! ### UTF-8 (models `std::str::from_utf8` and `str::as_bytes`) -/

/-- UTF-8 encoding of a single scalar value. -/
def utf8Encode1 (c : Char) : List Nat :=
  let n := c.toNat
  if n < 0x80 then [n]
  else if n < 0x800 then [0xC0 + n / 64, 0x80 + n % 64]
  else if n < 0x10000 then
    [0xE0 + n / 4096, 0x80 + (n / 64) % 64, 0x80 + n % 64]
  else
    [0xF0 + n / 262144, 0x80 + (n / 4096) % 64, 0x80 + (n / 64) % 64, 0x80 + n % 64]

/-- UTF-8 byte representation of a string (Rust `str::as_bytes`). -/
def utf8Encode (s : List Char) : List Nat :=
  (s.map utf8Encode1).flatten

/-- Is `c` a UTF-8 continuation byte? -/
def isCont (c : Nat) : Bool := 0x80 ≤ c && c ≤ 0xBF

/-- Decode one UTF-8 scalar from the head of a byte list, returning the
character and the remaining bytes.  Mirrors the strict validation of
`std::str::from_utf8` (rejects overlong forms, surrogates, values beyond
U+10FFFF and truncated sequences). -/
def utf8DecodeOne : List Nat → Option (Char × List Nat)
  | [] => none
  | b :: rest =>
    if b < 0x80 then some (Char.ofNat b, rest)
    else if b < 0xC2 then none
    else if b ≤ 0xDF then
      match rest with
      | c1 :: r =>
        if isCont c1 then some (Char.ofNat ((b - 0xC0) * 64 + (c1 - 0x80)), r)
        else none
      | [] => none
    else if b ≤ 0xEF then
      match rest with
      | c1 :: c2 :: r =>
        let lo1 : Nat := if b = 0xE0 then 0xA0 else 0x80
        let hi1 : Nat := if b = 0xED then 0x9F else 0xBF
        if lo1 ≤ c1 && c1 ≤ hi1 && isCont c2 then
          some (Char.ofNat ((b - 0xE0) * 4096 + (c1 - 0x80) * 64 + (c2 - 0x80)), r)
        else none
      | _ => none
    else if b ≤ 0xF4 then
      match rest with
      | c1 :: c2 :: c3 :: r =>
        let lo1 : Nat := if b = 0xF0 then 0x90 else 0x80
        let hi1 : Nat := if b = 0xF4 then 0x8F else 0xBF
        if lo1 ≤ c1 && c1 ≤ hi1 && isCont c2 && isCont c3 then
          some (Char.ofNat ((b - 0xF0) * 262144 + (c1 - 0x80) * 4096 +
            (c2 - 0x80) * 64 + (c3 - 0x80)), r)
        else none
      | _ => none
    else none

/-- Fuel-driven full decode; one unit of fuel per decoded character
(each character consumes at least one byte, so `length + 1` fuel always
suffices). -/
def utf8DecodeF : Nat → List Nat → Option (List Char)
  | _, [] => some []
  | 0, _ :: _ => none
  | Nat.succ fuel, bs@(_ :: _) =>
    match utf8DecodeOne bs with
    | some (c, rest) => (utf8DecodeF fuel rest).map (c :: ·)
    | none => none

/-- `std::str::from_utf8` on a byte chunk: `some` (the decoded text) on
valid UTF-8, `none` on invalid input. -/
def utf8Decode? (bs : List Nat) : Option (List Char) :=
  utf8DecodeF (bs.length + 1) bs

/-! ### JSON (models `serde_json` document parsing)

Numbers keep their raw lexeme; integer extraction later re-checks the
lexeme, mirroring serde's integer/float distinction. -/

inductive Json where
  | null
  | bool (b : Bool)
  | num (lexeme : List Char)
  | str (s : List Char)
  | arr (elems : List Json)
  | obj (fields : List (List Char × Json))

/-- JSON insignificant whitespace. -/
def skipWs : List Char → List Char
  | c :: cs => if c = ' ' ∨ c = '\t' ∨ c = '\n' ∨ c = '\r' then skipWs cs else c :: cs
  | [] => []

def hexVal? (c : Char) : Option Nat :=
  if '0' ≤ c ∧ c ≤ '9' then some (c.toNat - '0'.toNat)
  else if 'a' ≤ c ∧ c ≤ 'f' then some (c.toNat - 'a'.toNat + 10)
  else if 'A' ≤ c ∧ c ≤ 'F' then some (c.toNat - 'A'.toNat + 10)
  else none

def hex4? (h1 h2 h3 h4 : Char) : Option Nat := do
  let a ← hexVal? h1
  let b ← hexVal? h2
  let c ← hexVal? h3
  let d ← hexVal? h4
  pure (a * 4096 + b * 256 + c * 16 + d)

def escChar? (e : Char) : Option Char :=
  if e = '"' then some '"'
  else if e = '\\' then some '\\'
  else if e = '/' then some '/'
  else if e = 'n' then some '\n'
  else if e = 't' then some '\t'
  else if e = 'r' then some '\r'
  else if e = 'b' then some (Char.ofNat 8)
  else if e = 'f' then some (Char.ofNat 12)
  else none

/-- Parse a JSON string body (the opening quote already consumed); returns
the decoded characters and the input after the closing quote.  Handles the
standard escapes, `\uXXXX`, and UTF-16 surrogate pairs, and rejects raw
control characters, as serde does. -/
def parseStrF : Nat → List Char → Option (List Char × List Char)
  | 0, _ => none
  | Nat.succ fuel, s =>
    match s with
    | [] => none
    | '"' :: cs => some ([], cs)
    | '\\' :: 'u' :: h1 :: h2 :: h3 :: h4 :: cs => do
      let u ← hex4? h1 h2 h3 h4
      if u < 0xD800 ∨ 0xDFFF < u then
        (parseStrF fuel cs).map (fun p => (Char.ofNat u :: p.1, p.2))
      else if u ≤ 0xDBFF then
        match cs with
        | '\\' :: 'u' :: g1 :: g2 :: g3 :: g4 :: cs' => do
          let v ← hex4? g1 g2 g3 g4
          if 0xDC00 ≤ v ∧ v ≤ 0xDFFF then
            (parseStrF fuel cs').map (fun p =>
              (Char.ofNat (0x10000 + (u - 0xD800) * 1024 + (v - 0xDC00)) :: p.1, p.2))
          else none
        | _ => none
      else none
    | '\\' :: e :: cs =>
      match escChar? e with
      | some c => (parseStrF fuel cs).map (fun p => (c :: p.1, p.2))
      | none => none
    | c :: cs =>
      if c.toNat < 0x20 then none
      else (parseStrF fuel cs).map (fun p => (c :: p.1, p.2))

/-- Parse a JSON number lexeme (`-?int frac? exp?` with the JSON
leading-zero rule); returns the lexeme and the rest of the input. -/
def parseNumberLex (s : List Char) : Option (List Char × List Char) := do
  let (sgn, s1) : List Char × List Char :=
    match s with
    | '-' :: r => (['-'], r)
    | _ => ([], s)
  -- integer part: '0' alone, or a nonzero digit followed by digits
  let intPart ←
    match s1 with
    | '0' :: c :: _ => if c.isDigit then none else some ['0']
    | ['0'] => some ['0']
    | c :: _ => if c.isDigit then some (s1.takeWhile Char.isDigit) else none
    | [] => none
  let s2 := s1.drop intPart.length
  let fracRes : Option (List Char × List Char) :=
    match s2 with
    | '.' :: r =>
      let ds := r.takeWhile Char.isDigit
      if ds = [] then none else some ('.' :: ds, r.dropWhile Char.isDigit)
    | _ => some ([], s2)
  let (fracPart, s3) ← fracRes
  let expRes : Option (List Char × List Char) :=
    match s3 with
    | e :: r =>
      if e = 'e' ∨ e = 'E' then
        let (esgn, r1) : List Char × List Char :=
          match r with
          | '+' :: rr => (['+'], rr)
          | '-' :: rr => (['-'], rr)
          | _ => ([], r)
        let ds := r1.takeWhile Char.isDigit
        if ds = [] then none else some (e :: (esgn ++ ds), r1.dropWhile Char.isDigit)
      else some ([], s3)
    | [] => some ([], s3)
  let (expPart, s4) ← expRes
  pure (sgn ++ intPart ++ fracPart ++ expPart, s4)

/-- Recursive-descent mode: a whole value, the members of an object (after
`\x7b`), or the elements of an array (after `[`). -/
inductive PMode where
  | value
  | members
  | elems

/-- Fuel-driven JSON parser.  `members` mode returns `Json.obj`, `elems`
mode returns `Json.arr`. -/
def parseF : Nat → PMode → List Char → Option (Json × List Char)
  | 0, _, _ => none
  | Nat.succ fuel, PMode.value, s =>
    match skipWs s with
    | 'n' :: 'u' :: 'l' :: 'l' :: r => some (Json.null, r)
    | 't' :: 'r' :: 'u' :: 'e' :: r => some (Json.bool true, r)
    | 'f' :: 'a' :: 'l' :: 's' :: 'e' :: r => some (Json.bool false, r)
    | '"' :: r => (parseStrF (r.length + 1) r).map (fun p => (Json.str p.1, p.2))
    | '\x7b' :: r =>
      (match skipWs r with
       | '\x7d' :: rr => some (Json.obj [], rr)
       | _ => parseF fuel PMode.members r)
    | '[' :: r =>
      (match skipWs r with
       | ']' :: rr => some (Json.arr [], rr)
       | _ => parseF fuel PMode.elems r)
    | s' => (parseNumberLex s').map (fun p => (Json.num p.1, p.2))
  | Nat.succ fuel, PMode.members, s =>
    match skipWs s with
    | '"' :: r => do
      let (k, r1) ← parseStrF (r.length + 1) r
      match skipWs r1 with
      | ':' :: r2 => do
        let (v, r3) ← parseF fuel PMode.value r2
        match skipWs r3 with
        | ',' :: r4 => do
          let (j, r5) ← parseF fuel PMode.members r4
          match j with
          | Json.obj ms => some (Json.obj ((k, v) :: ms), r5)
          | _ => none
        | '\x7d' :: r4 => some (Json.obj [(k, v)], r4)
        | _ => none
      | _ => none
    | _ => none
  | Nat.succ fuel, PMode.elems, s => do
    let (v, r1) ← parseF fuel PMode.value s
    match skipWs r1 with
    | ',' :: r2 => do
      let (j, r3) ← parseF fuel PMode.elems r2
      match j with
      | Json.arr xs => some (Json.arr (v :: xs), r3)
      | _ => none
    | ']' :: r2 => some (Json.arr [v], r2)
    | _ => none

/-- `serde_json::from_str`'s document parse: a single value with nothing
but whitespace after it. -/
def parseJson (s : List Char) : Option Json :=
  match parseF (s.length + 1) PMode.value s with
  | some (v, rest) => if skipWs rest = [] then some v else none
  | none => none

/-! ### Anthropic wire structures (from `anthropic.rs`) and their serde
deserialization.  Optional fields follow serde's rules: an absent or
`null` field is `none`; a present field of the wrong shape fails the whole
decode.  A required field must be present with the right shape. -/

structure AnthropicUsage where
  input_tokens : Option Nat
  output_tokens : Option Nat

structure AnthropicContentBlock where
  content_type : List Char
  text : Option (List Char)

structure AnthropicTextDelta where
  delta_type : Option (List Char)
  text : Option (List Char)
  stop_reason : Option (List Char)
  stop_sequence : Option (List Char)
  usage : Option AnthropicUsage

structure AnthropicMessage where
  id : Option (List Char)
  message_type : List Char
  role : Option (List Char)
  content : Option (List AnthropicContentBlock)
  model : Option (List Char)
  stop_reason : Option (List Char)
  stop_sequence : Option (List Char)
  usage : Option AnthropicUsage

structure AnthropicChatCompletionChunk where
  event_type : List Char
  index : Option Nat
  delta : Option AnthropicTextDelta
  message : Option AnthropicMessage

structure AnthropicErrorDetails where
  details : Option Json
  error_type : List Char
  message : List Char

structure AnthropicErrorMessage where
  error_type : List Char
  error : AnthropicErrorDetails

def getField? (fields : List (List Char × Json)) (k : List Char) : Option Json :=
  (fields.find? (fun p => decide (p.fst = k))).map (·.snd)

/-- serde `Option<T>` field: absent or `null` gives `none`; otherwise the
payload must decode. -/
def optField (fields : List (List Char × Json)) (k : List Char)
    (p : Json → Option α) : Option (Option α) :=
  match getField? fields k with
  | none => some none
  | some Json.null => some none
  | some v =>
    match p v with
    | some a => some (some a)
    | none => none

def jStr? : Json → Option (List Char)
  | Json.str s => some s
  | _ => none

/-- serde unsigned-integer extraction: the numeric lexeme must be plain
digits (no sign, fraction or exponent) and fit below `bound`. -/
def jNatBelow? (bound : Nat) : Json → Option Nat
  | Json.num lx =>
    if lx ≠ [] ∧ lx.all Char.isDigit then
      let n := lx.foldl (fun acc c => acc * 10 + (c.toNat - '0'.toNat)) 0
      if n < bound then some n else none
    else none
  | _ => none

def reqStrField (fields : List (List Char × Json)) (k : List Char) :
    Option (List Char) :=
  match getField? fields k with
  | some (Json.str s) => some s
  | _ => none

def decodeUsage : Json → Option AnthropicUsage
  | Json.obj fs => do
    let it ← optField fs ("input_tokens".toList) (jNatBelow? 4294967296)
    let ot ← optField fs ("output_tokens".toList) (jNatBelow? 4294967296)
    pure ⟨it, ot⟩
  | _ => none

def decodeTextDelta : Json → Option AnthropicTextDelta
  | Json.obj fs => do
    let dt ← optField fs ("type".toList) jStr?
    let tx ← optField fs ("text".toList) jStr?
    let sr ← optField fs ("stop_reason".toList) jStr?
    let ss ← optField fs ("stop_sequence".toList) jStr?
    let us ← optField fs ("usage".toList) decodeUsage
    pure ⟨dt, tx, sr, ss, us⟩
  | _ => none

def decodeContentBlock : Json → Option AnthropicContentBlock
  | Json.obj fs => do
    let ct ← reqStrField fs ("type".toList)
    let tx ← optField fs ("text".toList) jStr?
    pure ⟨ct, tx⟩
  | _ => none

def jListOf? (p : Json → Option α) : Json → Option (List α)
  | Json.arr xs => xs.mapM p
  | _ => none

def decodeMessage : Json → Option AnthropicMessage
  | Json.obj fs => do
    let i ← optField fs ("id".toList) jStr?
    let mt ← reqStrField fs ("type".toList)
    let ro ← optField fs ("role".toList) jStr?
    let co ← optField fs ("content".toList) (jListOf? decodeContentBlock)
    let mo ← optField fs ("model".toList) jStr?
    let sr ← optField fs ("stop_reason".toList) jStr?
    let ss ← optField fs ("stop_sequence".toList) jStr?
    let us ← optField fs ("usage".toList) decodeUsage
    pure ⟨i, mt, ro, co, mo, sr, ss, us⟩
  | _ => none

def decodeChunkJson : Json → Option AnthropicChatCompletionChunk
  | Json.obj fs => do
    let et ← reqStrField fs ("type".toList)
    let ix ← optField fs ("index".toList) (jNatBelow? 18446744073709551616)
    let dl ← optField fs ("delta".toList) decodeTextDelta
    let ms ← optField fs ("message".toList) decodeMessage
    pure ⟨et, ix, dl, ms⟩
  | _ => none

def decodeErrorDetails : Json → Option AnthropicErrorDetails
  | Json.obj fs => do
    let dt ← optField fs ("details".toList) (fun v => some v)
    let et ← reqStrField fs ("type".toList)
    let ms ← reqStrField fs ("message".toList)
    pure ⟨dt, et, ms⟩
  | _ => none

def decodeErrorMessage (v : Json) : Option AnthropicErrorMessage :=
  match v with
  | Json.obj fs => do
    let et ← reqStrField fs ("type".toList)
    let er ←
      match getField? fs ("error".toList) with
      | some ev => decodeErrorDetails ev
      | none => none
    pure ⟨et, er⟩
  | _ => none

/-- `serde_json::from_str::<AnthropicChatCompletionChunk>`. -/
def anthropicDecodeChunk (s : List Char) : Option AnthropicChatCompletionChunk :=
  (parseJson s).bind decodeChunkJson

/-- `serde_json::from_str::<AnthropicErrorMessage>`. -/
def anthropicDecodeError (s : List Char) : Option AnthropicErrorMessage :=
  (parseJson s).bind decodeErrorMessage

/-! ### Frame cleaning (the `trim_start_matches` / `strip_prefix` chain of
`chat_stream`, anthropic.rs lines 405-419 and 437-444) -/

/-- One application of Rust `str::strip_prefix`: `some` (the remainder)
when `pat` is a prefix of `s`. -/
def stripOnce : List Char → List Char → Option (List Char)
  | [], s => some s
  | _ :: _, [] => none
  | p :: ps, c :: cs => if p = c then stripOnce ps cs else none

/-- Fuel-driven repeated prefix strip. -/
def stripAllF : Nat → List Char → List Char → List Char
  | 0, _, s => s
  | Nat.succ fuel, pat, s =>
    match stripOnce pat s with
    | some r => stripAllF fuel pat r
    | none => s

/-- Rust `str::trim_start_matches pat`: removes every leading occurrence of
`pat`. -/
def stripAll (pat s : List Char) : List Char := stripAllF (s.length + 1) pat s

/-- Rust `str::trim_start` (whitespace per `char::is_whitespace`; the
ASCII range suffices for the frames this code handles). -/
def rustTrimStart (s : List Char) : List Char :=
  s.dropWhile (fun c => c = ' ' ∨ c = '\t' ∨ c = '\n' ∨ c = '\r' ∨
    c = Char.ofNat 11 ∨ c = Char.ofNat 12)

/-- The frame-normalization chain of `chat_stream` (lines 405-418): strip
the seven known `event:` names in source order, then `trim_start` and strip
a `"data: "` marker, falling back to the untrimmed string when the marker
is absent (the Rust `unwrap_or(&processed_chunk)`). -/
def cleanFrame (chunk : List Char) : List Char :=
  let processed := stripAll ("event: message_start".toList) chunk
  let processed := stripAll ("event: content_block_start".toList) processed
  let processed := stripAll ("event: ping".toList) processed
  let processed := stripAll ("event: content_block_delta".toList) processed
  let processed := stripAll ("event: content_block_stop".toList) processed
  let processed := stripAll ("event: message_delta".toList) processed
  let processed := stripAll ("event: message_stop".toList) processed
  match stripOnce ("data: ".toList) (rustTrimStart processed) with
  | some r => r
  | none => processed

/-- The secondary normalization applied before the error-shape decode
(lines 438-444): strip `"event: error"`, `trim_start`, strip `"data: "`
with the same fallback. -/
def cleanErrorStage (cleaned : List Char) : List Char :=
  let processed := stripAll ("event: error".toList) cleaned
  match stripOnce ("data: ".toList) (rustTrimStart processed) with
  | some r => r
  | none => processed

/-! ### The `chat_stream` decoder loop (anthropic.rs lines 386-480)

Observable effects of one invocation: `tx.send` calls (message id,
cumulative text, `is_final`) and the diagnostic logs of the two `eprintln!`
fallbacks plus the unknown-chunk log.  The channel is modelled as open
(sends always succeed and are recorded in order). -/

inductive Effect where
  | send (message_id : Int) (text : List Char) (is_final : Bool)
  | logProviderError (error_type message : List Char)
  | logUnparsed (raw : List Char)
  | logUnknown

deriving DecidableEq

structure LoopState where
  buffer : List Char
  full_text : List Char
  effects : List Effect

deriving DecidableEq

/-- Outcome of processing one frame: the new `full_text`, the effects
emitted, and whether the inner loop `break`s (only after `message_stop`). -/
structure FrameStep where
  full_text : List Char
  effs : List Effect
  brk : Bool

/-- The effect of the `Err(_)` branch (lines 437-461): try the error-frame
shape after the secondary cleaning; log the provider error on success,
otherwise log the raw (cleaned) frame. -/
def failEffect (cleaned : List Char) : Effect :=
  match anthropicDecodeError (cleanErrorStage cleaned) with
  | some em => Effect.logProviderError em.error.error_type em.error.message
  | none => Effect.logUnparsed (cleanErrorStage cleaned)

/-- Processing of one extracted frame (lines 405-462): clean, decode as a
chunk; a delta with text appends and sends a non-final update; a chunk with
no delta sends the final update and breaks iff its type is
`"message_stop"`; decode failure falls to `failEffect` and continues. -/
def processFrame (mid : Int) (ft : List Char) (frame : List Char) : FrameStep :=
  let cleaned := cleanFrame frame
  match anthropicDecodeChunk cleaned with
  | some d =>
    match d.delta with
    | some dl =>
      match dl.text with
      | some content => ⟨ft ++ content, [Effect.send mid (ft ++ content) false], false⟩
      | none => ⟨ft, [], false⟩
    | none =>
      if d.event_type = ("message_stop".toList) then
        ⟨ft, [Effect.send mid ft true], true⟩
      else ⟨ft, [Effect.logUnknown], false⟩
  | none => ⟨ft, [failEffect cleaned], false⟩

/-- Classification of a frame by what the decoder would do with it. -/
inductive FrameClass where
  | deltaText (t : List Char)
  | deltaSilent
  | stopF
  | unknown
  | badF

deriving DecidableEq

def frameClass (frame : List Char) : FrameClass :=
  match anthropicDecodeChunk (cleanFrame frame) with
  | some d =>
    match d.delta with
    | some dl =>
      match dl.text with
      | some t => FrameClass.deltaText t
      | none => FrameClass.deltaSilent
    | none =>
      if d.event_type = ("message_stop".toList) then FrameClass.stopF
      else FrameClass.unknown
  | none => FrameClass.badF

/-- The text fragment carried by a frame, when it is a text delta. -/
def frameTextB (frame : List Char) : Option (List Char) :=
  match frameClass frame with
  | FrameClass.deltaText t => some t
  | _ => none

def textOf (frame : List Char) : List Char := (frameTextB frame).getD []

/-- Fuel-driven inner frame loop (lines 400-466): extract frames up to each
blank-line boundary and process them; stop when no boundary remains (wait
for more input) or when a frame `break`s.  Each iteration consumes at least
two characters, so `buffer.length` fuel suffices. -/
def drainF (mid : Int) : Nat → LoopState → LoopState
  | 0, st => st
  | Nat.succ fuel, st =>
    match findBlankLine st.buffer with
    | none => st
    | some i =>
      let frame := st.buffer.take i
      let rest := st.buffer.drop (i + 2)
      let step := processFrame mid st.full_text frame
      if step.brk then ⟨rest, step.full_text, st.effects ++ step.effs⟩
      else drainF mid fuel ⟨rest, step.full_text, st.effects ++ step.effs⟩

/-- The inner frame loop of `chat_stream`. -/
def drainFrames (mid : Int) (st : LoopState) : LoopState :=
  drainF mid st.buffer.length st

/-- Feeding a sequence of already-decoded text chunks through the loop:
append each chunk to the buffer, then drain complete frames (lines
397-466). -/
def feedChunks (mid : Int) (st : LoopState) : List (List Char) → LoopState
  | [] => st
  | c :: cs => feedChunks mid (drainFrames mid { st with buffer := st.buffer ++ c }) cs

/-- One event observed by the outer `tokio::select!` loop (lines 390-477):
a received byte chunk, a transport error on the stream, or the cancellation
token firing; end of input models stream end (`None`). -/
inductive InEvent where
  | chunk (bytes : List Nat)
  | chunkErr
  | cancel

inductive Outcome where
  | ok
  | errUtf8
  | errTransport

deriving DecidableEq

structure RunResult where
  st : LoopState
  outcome : Outcome

deriving DecidableEq

/-- The outer loop of `chat_stream`: decode each chunk as UTF-8 (an invalid
chunk is a fatal error via `?`), append and drain; a stream error is fatal;
cancellation sends one final update and returns `Ok`; stream end (`None`)
breaks out with `Ok`. -/
def runStream (mid : Int) (st : LoopState) : List InEvent → RunResult
  | [] => ⟨st, Outcome.ok⟩
  | InEvent.chunk bs :: rest =>
    match utf8Decode? bs with
    | none => ⟨st, Outcome.errUtf8⟩
    | some s => runStream mid (drainFrames mid { st with buffer := st.buffer ++ s }) rest
  | InEvent.chunkErr :: _ => ⟨st, Outcome.errTransport⟩
  | InEvent.cancel :: _ =>
    ⟨{ st with effects := st.effects ++ [Effect.send mid st.full_text true] }, Outcome.ok⟩

def initState : LoopState := ⟨[], [], []⟩

/-! ### Transcript decomposition and loop lemmas -/

/-- A frame together with its `"\n\n"` terminator. -/
def unitOf (f : List Char) : List Char := f ++ ['\n', '\n']

/-- A transcript: a sequence of terminated frames. -/
def joinUnits (fs : List (List Char)) : List Char := (fs.map unitOf).flatten

/-- Cumulative text and effects produced by processing a sequence of frames
in order. -/
def stepFold (mid : Int) (ft : List Char) : List (List Char) → List Char × List Effect
  | [] => (ft, [])
  | f :: fs =>
    let s := processFrame mid ft f
    let r := stepFold mid s.full_text fs
    (r.1, s.effs ++ r.2)

/-- The updates sent for a sequence of text fragments, with cumulative
text starting from `ft`. -/
def deltaSends (mid : Int) (ft : List Char) : List (List Char) → List Effect
  | [] => []
  | t :: ts => Effect.send mid (ft ++ t) false :: deltaSends mid (ft ++ t) ts

/-! ### Monotonicity of `cumulative_text` -/

/-- The texts carried by the `tx.send` calls among a list of effects. -/
def sendTexts : List Effect → List (List Char)
  | [] => []
  | Effect.send _ t _ :: es => t :: sendTexts es
  | Effect.logProviderError _ _ :: es => sendTexts es
  | Effect.logUnparsed _ :: es => sendTexts es
  | Effect.logUnknown :: es => sendTexts es

/-- Each entry of the list is a prefix of the next. -/
def chainB : List (List Char) → Bool
  | [] => true
  | [_] => true
  | a :: b :: rest => isPreB a b && chainB (b :: rest)

/-- The invariant threaded through the loop: the send texts so far, capped
by the current `full_text`, form a prefix chain. -/
def sendInvP (effs : List Effect) (ft : List Char) : Prop :=
  chainB (sendTexts effs ++ [ft]) = true

/-! ### Concrete streaming scenarios used by witnesses and counterexamples -/

def c1Frame1 : List Char :=
  ("data: \x7b\"type\": \"content_block_delta\", \"delta\": \x7b\"type\": \"text_delta\", \"text\": \"Hi\"\x7d\x7d").toList

def c1Stop : List Char := ("data: \x7b\"type\": \"message_stop\"\x7d").toList

def c1Transcript : List Char := joinUnits [c1Frame1] ++ unitOf c1Stop

def c1Chunk1 : List Char := c1Transcript.take 40

def c1Chunk2 : List Char := c1Transcript.drop 40

def c1Bytes1 : List Nat := utf8Encode c1Chunk1

def c1Bytes2 : List Nat := utf8Encode c1Chunk2

def c1cePre : List Char :=
  ("data: \x7b\"type\": \"content_block_delta\", \"delta\": \x7b\"type\": \"text_delta\", \"text\": \"").toList

def c1cePost : List Char := ("\"\x7d\x7d").toList

def c1ceFrame : List Char := c1cePre ++ ['é'] ++ c1cePost

def c1ceStop : List Char := ("data: \x7b\"type\": \"message_stop\"\x7d").toList

/-- First byte chunk of the split transcript: everything up to the first
byte `0xC3` of the two-byte encoding of `'é'`. -/
def c1ceBytes1 : List Nat := utf8Encode c1cePre ++ [0xC3]

/-- Second byte chunk: the continuation byte `0xA9` and the rest. -/
def c1ceBytes2 : List Nat :=
  [0xA9] ++ utf8Encode (c1cePost ++ ['\n', '\n'] ++ unitOf c1ceStop)

def c3Frame1 : List Char :=
  ("data: \x7b\"type\": \"content_block_delta\", \"delta\": \x7b\"type\": \"text_delta\", \"text\": \"one\"\x7d\x7d").toList

def c3Bad : List Char := ("data: \x7bgarbage".toList)

def c3Frame2 : List Char :=
  ("data: \x7b\"type\": \"content_block_delta\", \"delta\": \x7b\"type\": \"text_delta\", \"text\": \"two\"\x7d\x7d").toList

def c3Bytes : List Nat := utf8Encode (joinUnits [c3Frame1, c3Bad, c3Frame2])

def c4Delta : List Char :=
  ("data: \x7b\"type\": \"content_block_delta\", \"delta\": \x7b\"type\": \"text_delta\", \"text\": \"part\"\x7d\x7d").toList

def c4Bytes : List Nat := utf8Encode (joinUnits [c4Delta])

def c8StopBytes : List Nat := utf8Encode (joinUnits [("data: \x7b\"type\": \"message_stop\"\x7d").toList])

def c8DeltaBytes : List Nat :=
  utf8Encode (joinUnits [("data: \x7b\"type\": \"content_block_delta\", \"delta\": \x7b\"type\": \"text_delta\", \"text\": \"Hi\"\x7d\x7d").toList])

def c9Bytes : List Nat := utf8Encode (joinUnits [c4Delta])

/-! ### SHA-256 (models the `sha2` crate), hex (the `hex` crate) and
base64 (the `base64` crate) -/

def w32 : Nat := 4294967296

def rotr32 (n x : Nat) : Nat := ((x >>> n) ||| (x <<< (32 - n))) % w32

def isPrimeB (n : Nat) : Bool :=
  2 ≤ n && ((List.range n).drop 2).all (fun d => n % d ≠ 0)

def firstPrimes (k : Nat) : List Nat :=
  ((List.range 400).filter isPrimeB).take k

def icbrtStep (n : Nat) (acc : Nat) (i : Nat) : Nat :=
  let c := acc + (1 <<< i)
  if c * c * c ≤ n then c else acc

/-- Integer cube root (for numbers below `2 ^ 120`). -/
def icbrt (n : Nat) : Nat := ((List.range 40).reverse).foldl (icbrtStep n) 0

def isqrtStep (n : Nat) (acc : Nat) (i : Nat) : Nat :=
  let c := acc + (1 <<< i)
  if c * c ≤ n then c else acc

/-- Integer square root (for numbers below `2 ^ 80`). -/
def isqrtB (n : Nat) : Nat := ((List.range 40).reverse).foldl (isqrtStep n) 0

/-- The SHA-256 round constants: the first 32 bits of the fractional parts
of the cube roots of the first 64 primes. -/
def shaK : List Nat := (firstPrimes 64).map (fun p => icbrt (p <<< 96) % w32)

/-- The SHA-256 initial hash values: the first 32 bits of the fractional
parts of the square roots of the first 8 primes. -/
def shaH0 : List Nat := (firstPrimes 8).map (fun p => isqrtB (p <<< 64) % w32)

def be64 (n : Nat) : List Nat :=
  [(n >>> 56) % 256, (n >>> 48) % 256, (n >>> 40) % 256, (n >>> 32) % 256,
   (n >>> 24) % 256, (n >>> 16) % 256, (n >>> 8) % 256, n % 256]

def be32 (n : Nat) : List Nat :=
  [(n >>> 24) % 256, (n >>> 16) % 256, (n >>> 8) % 256, n % 256]

/-- SHA-256 message padding: `0x80`, zeros to 56 mod 64, then the bit
length as a 64-bit big-endian integer. -/
def shaPad (m : List Nat) : List Nat :=
  let L := m.length
  let k := (120 - ((L + 1) % 64)) % 64
  m ++ [0x80] ++ List.replicate k 0 ++ be64 (8 * L)

/-- Split the padded message into 64-byte blocks. -/
def shaBlocks : Nat → List Nat → List (List Nat)
  | 0, _ => []
  | _, [] => []
  | Nat.succ fuel, bs@(_ :: _) => bs.take 64 :: shaBlocks fuel (bs.drop 64)

def wordsOfBlock (b : List Nat) : List Nat :=
  (List.range 16).map (fun i =>
    (b.getD (4 * i) 0) <<< 24 + (b.getD (4 * i + 1) 0) <<< 16 +
      (b.getD (4 * i + 2) 0) <<< 8 + b.getD (4 * i + 3) 0)

def smallSigma0 (x : Nat) : Nat := (rotr32 7 x) ^^^ (rotr32 18 x) ^^^ (x >>> 3)

def smallSigma1 (x : Nat) : Nat := (rotr32 17 x) ^^^ (rotr32 19 x) ^^^ (x >>> 10)

def bigSigma0 (x : Nat) : Nat := (rotr32 2 x) ^^^ (rotr32 13 x) ^^^ (rotr32 22 x)

def bigSigma1 (x : Nat) : Nat := (rotr32 6 x) ^^^ (rotr32 11 x) ^^^ (rotr32 25 x)

/-- Extend the 16 block words to the 64-entry message schedule. -/
def shaExtend : Nat → List Nat → List Nat
  | 0, w => w
  | Nat.succ fuel, w =>
    let n := w.length
    let next := (w.getD (n - 16) 0 + smallSigma0 (w.getD (n - 15) 0) +
      w.getD (n - 7) 0 + smallSigma1 (w.getD (n - 2) 0)) % w32
    shaExtend fuel (w ++ [next])

def shaRound (st : Nat × Nat × Nat × Nat × Nat × Nat × Nat × Nat)
    (kw : Nat × Nat) : Nat × Nat × Nat × Nat × Nat × Nat × Nat × Nat :=
  match st with
  | (a, b, c, d, e, f, g, h) =>
    let ch := (e &&& f) ^^^ ((w32 - 1 - e % w32) &&& g)
    let temp1 := (h + bigSigma1 e + ch + kw.1 + kw.2) % w32
    let maj := (a &&& b) ^^^ (a &&& c) ^^^ (b &&& c)
    let temp2 := (bigSigma0 a + maj) % w32
    ((temp1 + temp2) % w32, a, b, c, (d + temp1) % w32, e, f, g)

def shaCompress (hs : List Nat) (block : List Nat) : List Nat :=
  let w := shaExtend 48 (wordsOfBlock block)
  let init : Nat × Nat × Nat × Nat × Nat × Nat × Nat × Nat :=
    (hs.getD 0 0, hs.getD 1 0, hs.getD 2 0, hs.getD 3 0,
     hs.getD 4 0, hs.getD 5 0, hs.getD 6 0, hs.getD 7 0)
  match (shaK.zip w).foldl shaRound init with
  | (a, b, c, d, e, f, g, h) =>
    [(hs.getD 0 0 + a) % w32, (hs.getD 1 0 + b) % w32, (hs.getD 2 0 + c) % w32,
     (hs.getD 3 0 + d) % w32, (hs.getD 4 0 + e) % w32, (hs.getD 5 0 + f) % w32,
     (hs.getD 6 0 + g) % w32, (hs.getD 7 0 + h) % w32]

/-- SHA-256 digest (32 bytes) of a byte message. -/
def sha256 (m : List Nat) : List Nat :=
  let padded := shaPad m
  let blocks := shaBlocks (padded.length + 1) padded
  ((blocks.foldl shaCompress shaH0).map be32).flatten

def hexDigit (n : Nat) : Char := ("0123456789abcdef".toList).getD n '0'

/-- `hex::encode`: lowercase hex of a byte list. -/
def hexEncode (bs : List Nat) : List Char :=
  (bs.map (fun b => [hexDigit (b / 16), hexDigit (b % 16)])).flatten

/-- The hex SHA-256 of a string's UTF-8 bytes — the `content_hash` both
ingestion operations compute (`Sha256::new/update/finalize` + `hex::encode`
over the stored string). -/
def sha256Hex (s : List Char) : List Char := hexEncode (sha256 (utf8Encode s))

def b64Table : List Char :=
  ("ABCDEFGHIJKLMNOPQRSTUVWXYZabcdefghijklmnopqrstuvwxyz0123456789+/").toList

def b64Char (n : Nat) : Char := b64Table.getD n 'A'

/-- `base64::encode` (standard alphabet, `=` padding). -/
def base64Encode : List Nat → List Char
  | [] => []
  | [a] => [b64Char (a / 4), b64Char ((a % 4) * 16), '=', '=']
  | [a, b] => [b64Char (a / 4), b64Char ((a % 4) * 16 + b / 16),
      b64Char ((b % 16) * 4), '=']
  | a :: b :: c :: rest =>
    b64Char (a / 4) :: b64Char ((a % 4) * 16 + b / 16) ::
      b64Char ((b % 16) * 4 + c / 64) :: b64Char (c % 64) ::
        base64Encode rest

/-! ### Attachment store (`attachment_api.rs`)

The persistence collaborator (`conversation_db`) is not part of the
sources; its two primitives are modelled from the spec (§6). -/

inductive AttachmentType where
  | Text
  | Image

deriving DecidableEq

/-- Modelled from the spec: `AttachmentType::try_from(i64)` of the missing
`conversation_db` module — the kind is declared by the caller and is
`Text` or `Image`; an unknown code fails (which the call site unwraps,
i.e. panics). The numeric codes are not observable from the sources; `1`
and `2` are used here. -/
def AttachmentType.tryFrom : Int → Option AttachmentType
  | 1 => some AttachmentType.Text
  | 2 => some AttachmentType.Image
  | _ => none

structure MessageAttachment where
  id : Int
  message_id : Int
  attachment_type : AttachmentType
  attachment_url : Option (List Char)
  attachment_content : Option (List Char)
  attachment_hash : Option (List Char)
  use_vector : Bool
  token_count : Option Int

deriving DecidableEq

/-- The attachment table plus the id the next insert receives. -/
structure Db where
  rows : List MessageAttachment
  next_id : Int

deriving DecidableEq

/-- Modelled from the spec: the persistence collaborator's
`read_by_hash(hash) -> optional attachment`
(`attachment_repo().read_by_attachment_hash` in the sources). -/
def read_by_attachment_hash (db : Db) (h : List Char) : Option MessageAttachment :=
  db.rows.find? (fun r => decide (r.attachment_hash = some h))

/-- Modelled from the spec: the persistence collaborator's
`create(attachment) -> id` (`attachment_repo().create`): stores the row,
assigning a fresh id, and returns the stored row. -/
def createAttachment (db : Db) (a : MessageAttachment) : MessageAttachment × Db :=
  let row := { a with id := db.next_id }
  (row, ⟨db.rows ++ [row], db.next_id + 1⟩)

/-- The error taxonomy surfaced by the attachment operations.  `panicked`
models an `unwrap()` on `None` (a Rust panic, not an `Err`). -/
inductive AppErr where
  | notFound
  | unsupportedType
  | ioErr
  | panicked

deriving DecidableEq

/-- The local filesystem, as the ingestion operation sees it. -/
structure FsFile where
  path : List Char
  bytes : List Nat

deriving DecidableEq

def fsRead? (fs : List FsFile) (p : List Char) : Option (List Nat) :=
  (fs.find? (fun f => decide (f.path = p))).map (·.bytes)

/-- Rust `Path::extension` on the model path: the part of the final
component after its last `'.'`, where a leading dot alone does not count
(hidden files). -/
def extOf (path : List Char) : Option (List Char) :=
  let name := (path.reverse.takeWhile (fun c => c ≠ '/')).reverse
  match name with
  | [] => none
  | c :: rest =>
    let stem := if c = '.' then rest else c :: rest
    if stem.contains '.' then
      some ((stem.reverse.takeWhile (fun c => c ≠ '.')).reverse)
    else none

/-- `mime_guess::from_path(..).first_or_octet_stream()`: the extension
table entries relevant here, anything else defaulting to
`application/octet-stream`. -/
def mime_from_path (path : List Char) : List Char :=
  match extOf path with
  | some e =>
    if e = "png".toList then "image/png".toList
    else if e = "jpg".toList then "image/jpeg".toList
    else if e = "jpeg".toList then "image/jpeg".toList
    else if e = "gif".toList then "image/gif".toList
    else if e = "webp".toList then "image/webp".toList
    else if e = "bmp".toList then "image/bmp".toList
    else if e = "txt".toList then "text/plain".toList
    else if e = "md".toList then "text/markdown".toList
    else "application/octet-stream".toList
  | none => "application/octet-stream".toList

/-- The MIME major-type classification of `add_attachment_by_url`
(lines 61-70): `"text"`, `"image"`, or the empty string. -/
def file_type_classify (file_type : List Char) : List Char :=
  if isPreB ("text/".toList) file_type then "text".toList
  else if isPreB ("image/".toList) file_type then "image".toList
  else []

/-- Step 4 of `add_attachment_by_url` (lines 75-104): derive the stored
content string.  An image is read raw, base64-encoded and wrapped in a
data URI keyed by the exact subtype (jpeg/png/gif/webp; anything else is
unsupported); a text file is read as UTF-8 text; any other MIME class is
unsupported.  Missing files were already rejected (modelled first here,
matching the Rust order of `exists()` before classification I/O). -/
def compute_reader (fs : List FsFile) (file_url : List Char) :
    Except AppErr (List Char) :=
  match fsRead? fs file_url with
  | none => Except.error AppErr.notFound
  | some bytes =>
    let file_type := mime_from_path file_url
    let cls := file_type_classify file_type
    if cls = "image".toList then
      let base64_str := base64Encode bytes
      if file_type = "image/jpeg".toList then
        Except.ok (("data:image/jpeg;base64,").toList ++ base64_str)
      else if file_type = "image/png".toList then
        Except.ok (("data:image/png;base64,").toList ++ base64_str)
      else if file_type = "image/gif".toList then
        Except.ok (("data:image/gif;base64,").toList ++ base64_str)
      else if file_type = "image/webp".toList then
        Except.ok (("data:image/webp;base64,").toList ++ base64_str)
      else Except.error AppErr.unsupportedType
    else if cls = "text".toList then
      match utf8Decode? bytes with
      | some content => Except.ok content
      | none => Except.error AppErr.ioErr
    else Except.error AppErr.unsupportedType

/-- `add_attachment_by_url` (attachment_api.rs lines 47-169): existence
check, classification, content construction, SHA-256 over the stored
string, dedup lookup by hash, and insert-on-miss.  Returns the attachment
id and the resulting store. -/
def add_attachment_by_url (fs : List FsFile) (db : Db) (file_url : List Char) :
    Except AppErr (Int × Db) :=
  match compute_reader fs file_url with
  | Except.error e => Except.error e
  | Except.ok reader =>
    let hash_str := sha256Hex reader
    match read_by_attachment_hash db hash_str with
    | some attachment => Except.ok (attachment.id, db)
    | none =>
      let cls := file_type_classify (mime_from_path file_url)
      if cls = "image".toList then
        let created := createAttachment db
          ⟨0, -1, AttachmentType.Image, some file_url, some reader,
            some hash_str, false, some 0⟩
        Except.ok (created.1.id, created.2)
      else if cls = "text".toList then
        let created := createAttachment db
          ⟨0, -1, AttachmentType.Text, some file_url, some reader,
            some hash_str, false, some 0⟩
        Except.ok (created.1.id, created.2)
      else Except.error AppErr.unsupportedType

/-- `add_attachment_content` (attachment_api.rs lines 171-217): SHA-256
over the inline content, dedup lookup by hash, and insert-on-miss with the
caller-declared attachment type (whose conversion is `unwrap`ped — a panic
on an unknown code, but only on the insert path). -/
def add_attachment_content (db : Db) (file_content file_name : List Char)
    (attachment_type : Int) : Except AppErr (Int × Db) :=
  let hash_str := sha256Hex file_content
  match read_by_attachment_hash db hash_str with
  | some attachment => Except.ok (attachment.id, db)
  | none =>
    match AttachmentType.tryFrom attachment_type with
    | none => Except.error AppErr.panicked
    | some ty =>
      let created := createAttachment db
        ⟨0, -1, ty, some file_name, some file_content, some hash_str,
          false, some 0⟩
      Except.ok (created.1.id, created.2)

/-- One ingestion request, for stating path/inline combinations. -/
inductive IngestOp where
  | fromPath (fs : List FsFile) (url : List Char)
  | inline (content name : List Char) (ty : Int)

def runIngest : IngestOp → Db → Except AppErr (Int × Db)
  | IngestOp.fromPath fs url, db => add_attachment_by_url fs db url
  | IngestOp.inline c n t, db => add_attachment_content db c n t

/-- The stored content string an ingestion produces. -/
def storedOf : IngestOp → Except AppErr (List Char)
  | IngestOp.fromPath fs url => compute_reader fs url
  | IngestOp.inline c _ _ => Except.ok c

deriving instance DecidableEq for Except

def c5Url : List Char := "img.png".toList

def c5Fs : List FsFile := [⟨c5Url, [137, 80, 78, 71]⟩]

def c5Stored : List Char :=
  ("data:image/png;base64,").toList ++ base64Encode [137, 80, 78, 71]

def c5Db1 : Db :=
  ⟨[⟨1, -1, AttachmentType.Image, some c5Url, some c5Stored,
    some (sha256Hex c5Stored), false, some 0⟩], 2⟩

def c2Text : List Char := "hello attachment".toList

/-! ### The dedup sequence under interleaving (for the atomicity claim) -/

def dedupRaceRow (content h : List Char) : MessageAttachment :=
  ⟨0, -1, AttachmentType.Text, some ("race.txt".toList), some content,
    some h, false, some 0⟩

/-- The lookup-then-insert dedup sequence of `add_attachment_content`
(lines 186-216), executed by two concurrent callers with identical content
under the interleaving lookup-A, lookup-B, insert-A, insert-B.  Each
caller runs exactly the source's two steps: `read_by_attachment_hash`,
then `create` if the lookup returned nothing. -/
def dedupRace (content : List Char) : Db :=
  let h := sha256Hex content
  let db0 : Db := ⟨[], 1⟩
  let lookupA := read_by_attachment_hash db0 h
  let lookupB := read_by_attachment_hash db0 h
  let db1 :=
    match lookupA with
    | some _ => db0
    | none => (createAttachment db0 (dedupRaceRow content h)).2
  let db2 :=
    match lookupB with
    | some _ => db1
    | none => (createAttachment db1 (dedupRaceRow content h)).2
  db2

/-- The same two ingestions run sequentially (the second sees the first's
insert). -/
def dedupSeq (content : List Char) : Db :=
  match add_attachment_content ⟨[], 1⟩ content ("race.txt".toList) 1 with
  | Except.ok (_, db1) =>
    match add_attachment_content db1 content ("race.txt".toList) 1 with
    | Except.ok (_, db2) => db2
    | Except.error _ => db1
  | Except.error _ => ⟨[], 1⟩

def rowsWithHash (db : Db) (h : List Char) : Nat :=
  db.rows.countP (fun r => decide (r.attachment_hash = some h))

def c7Fs : List FsFile :=
  [⟨"a/pic.png".toList, [1, 2, 3]⟩,
   ⟨"a/note.txt".toList, utf8Encode ("hi there".toList)⟩,
   ⟨"a/blob.bin".toList, [0, 1]⟩,
   ⟨"a/pic.bmp".toList, [66, 77]⟩]

/-! ### Provider-configuration handling of `chat` and `chat_stream`
(anthropic.rs lines 145-154 and 279-288) -/

/-- `HashMap` lookup over the collected `(name, value)` pairs: with
duplicate names, the last insertion wins. -/
def config_map_get (cfg : List (List Char × List Char)) (k : List Char) :
    Option (List Char) :=
  (cfg.reverse.find? (fun p => decide (p.fst = k))).map (·.snd)

structure RequestTarget where
  url : List Char
  api_key : List Char

deriving DecidableEq

/-- `ok` models normal continuation; `panicked` models an `unwrap()` on
`None`. -/
inductive PanicOr (α : Type) where
  | ok (a : α)
  | panicked

deriving DecidableEq

/-- Rust `trim_end_matches('/')`. -/
def trimEndSlashes (s : List Char) : List Char :=
  (s.reverse.dropWhile (fun c => c = '/')).reverse

/-- The configuration prelude of `chat` (lines 145-154): endpoint with a
default and trimmed trailing slashes, then
`config_map.get("api_key").unwrap()`. -/
def chatRequestTarget (config : List (List Char × List Char)) :
    PanicOr RequestTarget :=
  let endpoint := trimEndSlashes
    ((config_map_get config ("endpoint".toList)).getD
      ("https://api.anthropic.com".toList))
  let url := endpoint ++ ("/v1/messages".toList)
  match config_map_get config ("api_key".toList) with
  | some k => PanicOr.ok ⟨url, k⟩
  | none => PanicOr.panicked

/-- The configuration prelude of `chat_stream` (lines 279-288) — the same
code duplicated in the source. -/
def chatStreamRequestTarget (config : List (List Char × List Char)) :
    PanicOr RequestTarget :=
  let endpoint := trimEndSlashes
    ((config_map_get config ("endpoint".toList)).getD
      ("https://api.anthropic.com".toList))
  let url := endpoint ++ ("/v1/messages".toList)
  match config_map_get config ("api_key".toList) with
  | some k => PanicOr.ok ⟨url, k⟩
  | none => PanicOr.panicked

def c10Cfg : List (List Char × List Char) :=
  [("api_key".toList, "sk-test".toList)]

/-! ### Theorems: supporting lemmas, claim theorems, witnesses,
counterexamples and fidelity checks -/

theorem isPreB_iff : ∀ p s : List Char, isPreB p s = true ↔ ∃ t, p ++ t = s := by
  intro p
  induction p with
  | nil => intro s; simp [isPreB]
  | cons a as ih =>
    intro s
    cases s with
    | nil => simp [isPreB]
    | cons b bs =>
      simp only [isPreB, Bool.and_eq_true, decide_eq_true_eq, ih bs]
      constructor
      · rintro ⟨rfl, t, rfl⟩; exact ⟨t, rfl⟩
      · rintro ⟨t, h⟩
        injection h with h1 h2
        exact ⟨h1, t, h2⟩

theorem isPreB_refl (s : List Char) : isPreB s s = true := by
  induction s with
  | nil => rfl
  | cons a as ih => simp [isPreB, ih]

theorem isPreB_append (s t : List Char) : isPreB s (s ++ t) = true := by
  rw [isPreB_iff]; exact ⟨t, rfl⟩

theorem isPreB_trans {a b c : List Char} (h1 : isPreB a b = true)
    (h2 : isPreB b c = true) : isPreB a c = true := by
  rw [isPreB_iff] at h1 h2 ⊢
  obtain ⟨t1, rfl⟩ := h1
  obtain ⟨t2, rfl⟩ := h2
  exact ⟨t1 ++ t2, by simp⟩

theorem findBlankLine_le : ∀ (s : List Char) (i : Nat),
    findBlankLine s = some i → i + 2 ≤ s.length
  | [], i, h => by simp [findBlankLine] at h
  | [_], i, h => by simp [findBlankLine] at h
  | a :: b :: rest, i, h => by
    by_cases hab : a = '\n' ∧ b = '\n'
    · simp only [findBlankLine, if_pos hab, Option.some.injEq] at h
      simp [← h]
    · simp only [findBlankLine, if_neg hab, Option.map_eq_some'] at h
      obtain ⟨j, hj, hji⟩ := h
      have := findBlankLine_le (b :: rest) j hj
      simp at this ⊢
      omega

theorem findBlankLine_append_nl : ∀ (f : List Char), wfFrame f →
    findBlankLine (f ++ ['\n']) = none
  | [], h => absurd rfl h.2.1
  | [c], h => by
    have hc : c ≠ '\n' := by
      intro hc; exact h.2.2 (by simp [hc])
    simp [findBlankLine, hc]
  | a :: b :: rest, h => by
    obtain ⟨hnone, -, hlast⟩ := h
    have hab : ¬(a = '\n' ∧ b = '\n') := by
      intro hab
      simp [findBlankLine, if_pos hab] at hnone
    have htail : findBlankLine (b :: rest) = none := by
      simp only [findBlankLine, if_neg hab, Option.map_eq_none'] at hnone
      exact hnone
    have ih := findBlankLine_append_nl (b :: rest)
      ⟨htail, by simp, by rwa [List.getLast?_cons_cons] at hlast⟩
    simp only [List.cons_append, findBlankLine, if_neg hab]
    rw [List.cons_append] at ih
    simp [ih]

theorem findBlankLine_unit : ∀ (f : List Char), wfFrame f → ∀ (r : List Char),
    findBlankLine (f ++ '\n' :: '\n' :: r) = some f.length
  | [], h, _ => absurd rfl h.2.1
  | [c], h, r => by
    have hc : c ≠ '\n' := by
      intro hc; exact h.2.2 (by simp [hc])
    simp [findBlankLine, hc]
  | a :: b :: rest, h, r => by
    obtain ⟨hnone, -, hlast⟩ := h
    have hab : ¬(a = '\n' ∧ b = '\n') := by
      intro hab
      simp [findBlankLine, if_pos hab] at hnone
    have htail : findBlankLine (b :: rest) = none := by
      simp only [findBlankLine, if_neg hab, Option.map_eq_none'] at hnone
      exact hnone
    have ih := findBlankLine_unit (b :: rest)
      ⟨htail, by simp, by rwa [List.getLast?_cons_cons] at hlast⟩ r
    simp only [List.cons_append, findBlankLine, if_neg hab]
    rw [List.cons_append] at ih
    simp [ih]

theorem findBlankLine_take : ∀ (s : List Char), findBlankLine s = none →
    ∀ (n : Nat), findBlankLine (s.take n) = none
  | [], _, n => by cases n <;> simp [findBlankLine]
  | [c], _, n => by
    match n with
    | 0 => simp [findBlankLine]
    | Nat.succ m => simp [findBlankLine]
  | a :: b :: rest, h, n => by
    have hab : ¬(a = '\n' ∧ b = '\n') := by
      intro hab
      simp [findBlankLine, if_pos hab] at h
    have htail : findBlankLine (b :: rest) = none := by
      simp only [findBlankLine, if_neg hab, Option.map_eq_none'] at h
      exact h
    match n with
    | 0 => simp [findBlankLine]
    | 1 => simp [findBlankLine]
    | Nat.succ (Nat.succ m) =>
      have ih := findBlankLine_take (b :: rest) htail (m + 1)
      simp only [List.take_succ_cons] at ih ⊢
      simp only [findBlankLine, if_neg hab, ih, Option.map_none']

theorem findBlankLine_contains : ∀ (x y : List Char),
    findBlankLine (x ++ '\n' :: '\n' :: y) ≠ none
  | [], y => by simp [findBlankLine]
  | [c], y => by
    by_cases hc : c = '\n' <;> simp [findBlankLine, hc]
  | a :: b :: tl, y => by
    by_cases hab : a = '\n' ∧ b = '\n'
    · simp [findBlankLine, if_pos hab]
    · have ih := findBlankLine_contains (b :: tl) y
      simp only [List.cons_append, List.append_eq] at ih
      simp only [List.cons_append, List.append_eq, findBlankLine, if_neg hab]
      intro hmap
      rw [Option.map_eq_none'] at hmap
      exact ih hmap

example : utf8Decode? (utf8Encode ("héllo".toList)) = some ("héllo".toList) := by decide

example : utf8Decode? [0xC3] = none := by decide

example : utf8Decode? [0xA9] = none := by decide

example :
    parseJson ("\x7b\"a\": 1, \"b\": [true, null], \"c\": \"x\\n\"\x7d".toList) =
      some (Json.obj [("a".toList, Json.num ['1']),
        ("b".toList, Json.arr [Json.bool true, Json.null]),
        ("c".toList, Json.str ['x', '\n'])]) := by rfl

example : parseJson ("\x7b\"a\": 01\x7d".toList) = none := by rfl

example : parseJson ("\x7b\"a\"".toList) = none := by rfl

example : parseJson ("lorem ipsum".toList) = none := by rfl

example :
    cleanFrame ("event: message_stop\ndata: \x7b\"type\": \"message_stop\"\x7d".toList) =
      "\x7b\"type\": \"message_stop\"\x7d".toList := by rfl

example :
    (anthropicDecodeChunk
      ("\x7b\"type\": \"content_block_delta\", \"index\": 0, \"delta\": \x7b\"type\": \"text_delta\", \"text\": \"Hi\"\x7d\x7d".toList)).bind
        (fun d => d.delta.bind (fun dl => dl.text)) = some ("Hi".toList) := by rfl

example :
    (anthropicDecodeChunk ("\x7b\"type\": \"message_stop\"\x7d".toList)).map
      (fun d => (d.event_type, d.delta.isSome)) =
      some ("message_stop".toList, false) := by rfl

example :
    (anthropicDecodeError
      ("\x7b\"type\": \"error\", \"error\": \x7b\"type\": \"overloaded_error\", \"message\": \"Overloaded\"\x7d\x7d".toList)).map
      (fun e => (e.error.error_type, e.error.message)) =
      some ("overloaded_error".toList, "Overloaded".toList) := by rfl

theorem processFrame_class (mid : Int) (ft frame : List Char) :
    processFrame mid ft frame =
      match frameClass frame with
      | FrameClass.deltaText t =>
          ⟨ft ++ t, [Effect.send mid (ft ++ t) false], false⟩
      | FrameClass.deltaSilent => ⟨ft, [], false⟩
      | FrameClass.stopF => ⟨ft, [Effect.send mid ft true], true⟩
      | FrameClass.unknown => ⟨ft, [Effect.logUnknown], false⟩
      | FrameClass.badF => ⟨ft, [failEffect (cleanFrame frame)], false⟩ := by
  unfold processFrame frameClass
  rcases h : anthropicDecodeChunk (cleanFrame frame) with - | d
  · simp [h]
  · rcases hd : d.delta with - | dl
    · by_cases he : d.event_type = ['m', 'e', 's', 's', 'a', 'g', 'e', '_', 's', 't', 'o', 'p']
      <;> simp [h, hd, he]
    · rcases ht : dl.text with - | t <;> simp [h, hd, ht]

theorem drainF_congr (mid : Int) : ∀ (f1 f2 : Nat) (st : LoopState),
    st.buffer.length ≤ f1 → st.buffer.length ≤ f2 →
    drainF mid f1 st = drainF mid f2 st
  | f1, f2, st, h1, h2 => by
    match f1, f2 with
    | 0, 0 => rfl
    | 0, Nat.succ f2 =>
      have : st.buffer = [] := List.length_eq_zero.mp (Nat.le_zero.mp h1)
      simp [drainF, this, findBlankLine]
    | Nat.succ f1, 0 =>
      have : st.buffer = [] := List.length_eq_zero.mp (Nat.le_zero.mp h2)
      simp [drainF, this, findBlankLine]
    | Nat.succ f1, Nat.succ f2 =>
      simp only [drainF]
      cases hfind : findBlankLine st.buffer with
      | none => rfl
      | some i =>
        have hle := findBlankLine_le _ _ hfind
        simp only
        set step := processFrame mid st.full_text (st.buffer.take i) with hstep
        by_cases hb : step.brk
        · simp [hb]
        · simp only [hb, if_false, Bool.false_eq_true]
          exact drainF_congr mid f1 f2 _
            (by simp; omega) (by simp; omega)

/-- One-step unfolding of the inner frame loop. -/
theorem drainFrames_eq (mid : Int) (st : LoopState) :
    drainFrames mid st =
      match findBlankLine st.buffer with
      | none => st
      | some i =>
        let frame := st.buffer.take i
        let rest := st.buffer.drop (i + 2)
        let step := processFrame mid st.full_text frame
        if step.brk then ⟨rest, step.full_text, st.effects ++ step.effs⟩
        else drainFrames mid ⟨rest, step.full_text, st.effects ++ step.effs⟩ := by
  unfold drainFrames
  cases hlen : st.buffer.length with
  | zero =>
    have : st.buffer = [] := List.length_eq_zero.mp hlen
    simp [drainF, this, findBlankLine]
  | succ n =>
    simp only [drainF]
    cases hfind : findBlankLine st.buffer with
    | none => rfl
    | some i =>
      have hle := findBlankLine_le _ _ hfind
      rw [hlen] at hle
      simp only
      set step := processFrame mid st.full_text (st.buffer.take i) with hstep
      by_cases hb : step.brk
      · simp [hb]
      · simp only [hb, if_false, Bool.false_eq_true]
        exact drainF_congr mid n _ _
          (by simp only [List.length_drop]; omega) (Nat.le_refl _)

theorem joinUnits_nil : joinUnits [] = [] := rfl

theorem joinUnits_cons (u : List Char) (us : List (List Char)) :
    joinUnits (u :: us) = unitOf u ++ joinUnits us := by
  simp [joinUnits]

theorem joinUnits_append (xs ys : List (List Char)) :
    joinUnits (xs ++ ys) = joinUnits xs ++ joinUnits ys := by
  simp [joinUnits]

theorem unitOf_length (f : List Char) : (unitOf f).length = f.length + 2 := by
  simp [unitOf]

theorem stepFold_append (mid : Int) : ∀ (xs ys : List (List Char)) (ft : List Char),
    stepFold mid ft (xs ++ ys) =
      ((stepFold mid (stepFold mid ft xs).1 ys).1,
        (stepFold mid ft xs).2 ++ (stepFold mid (stepFold mid ft xs).1 ys).2)
  | [], ys, ft => by simp [stepFold]
  | x :: xs, ys, ft => by
    simp only [List.cons_append, stepFold, List.append_eq,
      stepFold_append mid xs ys, List.append_assoc]

theorem processFrame_brk_false {f : List Char}
    (h : frameClass f ≠ FrameClass.stopF) (mid : Int) (ft : List Char) :
    (processFrame mid ft f).brk = false := by
  rw [processFrame_class]
  rcases hc : frameClass f <;> simp_all

theorem processFrame_brk_stop {f : List Char}
    (h : frameClass f = FrameClass.stopF) (mid : Int) (ft : List Char) :
    processFrame mid ft f = ⟨ft, [Effect.send mid ft true], true⟩ := by
  rw [processFrame_class, h]

/-- One complete frame at the head of the buffer is consumed. -/
theorem drain_unit_step (mid : Int) (f r ft : List Char) (effs : List Effect)
    (hf : wfFrame f) :
    drainFrames mid ⟨f ++ '\n' :: '\n' :: r, ft, effs⟩ =
      (let s := processFrame mid ft f
       if s.brk then ⟨r, s.full_text, effs ++ s.effs⟩
       else drainFrames mid ⟨r, s.full_text, effs ++ s.effs⟩) := by
  rw [drainFrames_eq]
  simp only [findBlankLine_unit f hf r]
  have htake : (f ++ '\n' :: '\n' :: r).take f.length = f :=
    List.take_left f ('\n' :: '\n' :: r)
  have hdrop : (f ++ '\n' :: '\n' :: r).drop (f.length + 2) = r := by
    have : f ++ '\n' :: '\n' :: r = (f ++ ['\n', '\n']) ++ r := by simp
    rw [this]
    exact List.drop_left' (by simp)
  simp only [htake, hdrop]

/-- Draining a buffer of complete non-breaking units followed by a
boundary-free remainder consumes exactly those units. -/
theorem drain_nonbrk (mid : Int) : ∀ (fs : List (List Char)) (p ft : List Char)
    (effs : List Effect),
    (∀ f ∈ fs, wfFrame f ∧ frameClass f ≠ FrameClass.stopF) →
    findBlankLine p = none →
    drainFrames mid ⟨joinUnits fs ++ p, ft, effs⟩ =
      ⟨p, (stepFold mid ft fs).1, effs ++ (stepFold mid ft fs).2⟩
  | [], p, ft, effs, _, hp => by
    rw [joinUnits_nil, List.nil_append, drainFrames_eq]
    simp [hp, stepFold]
  | f :: fs, p, ft, effs, hwf, hp => by
    have hbuf : joinUnits (f :: fs) ++ p = f ++ '\n' :: '\n' :: (joinUnits fs ++ p) := by
      rw [joinUnits_cons]; simp [unitOf]
    rw [hbuf, drain_unit_step mid f _ ft effs (hwf f (by simp)).1]
    have hbrk := processFrame_brk_false (hwf f (by simp)).2 mid ft
    simp only [hbrk, if_false, Bool.false_eq_true]
    rw [drain_nonbrk mid fs _ _ _ (fun g hg => hwf g (by simp [hg])) hp]
    simp [stepFold]

/-- Draining complete non-breaking units, then a terminated `message_stop`
unit: the final update is sent, the loop breaks, and anything after the
stop unit stays in the buffer. -/
theorem drain_stop (mid : Int) : ∀ (fs : List (List Char)) (sf r ft : List Char)
    (effs : List Effect),
    (∀ f ∈ fs, wfFrame f ∧ frameClass f ≠ FrameClass.stopF) →
    wfFrame sf → frameClass sf = FrameClass.stopF →
    drainFrames mid ⟨joinUnits fs ++ (unitOf sf ++ r), ft, effs⟩ =
      ⟨r, (stepFold mid ft fs).1,
        effs ++ (stepFold mid ft fs).2 ++
          [Effect.send mid (stepFold mid ft fs).1 true]⟩
  | [], sf, r, ft, effs, _, hsf, hsfc => by
    rw [joinUnits_nil, List.nil_append]
    have hbuf : unitOf sf ++ r = sf ++ '\n' :: '\n' :: r := by simp [unitOf]
    rw [hbuf, drain_unit_step mid sf r ft effs hsf,
      processFrame_brk_stop hsfc mid ft]
    simp [stepFold]
  | f :: fs, sf, r, ft, effs, hwf, hsf, hsfc => by
    have hbuf : joinUnits (f :: fs) ++ (unitOf sf ++ r) =
        f ++ '\n' :: '\n' :: (joinUnits fs ++ (unitOf sf ++ r)) := by
      rw [joinUnits_cons]; simp [unitOf]
    rw [hbuf, drain_unit_step mid f _ ft effs (hwf f (by simp)).1]
    have hbrk := processFrame_brk_false (hwf f (by simp)).2 mid ft
    simp only [hbrk, if_false, Bool.false_eq_true]
    rw [drain_stop mid fs sf r _ _ (fun g hg => hwf g (by simp [hg])) hsf hsfc]
    simp [stepFold]

/-- Any division `P ++ R` of a transcript splits `P` into a maximal run of
complete units plus a boundary-free partial frame. -/
theorem units_decomp : ∀ (us : List (List Char)) (P R : List Char),
    (∀ u ∈ us, wfFrame u) → P ++ R = joinUnits us →
    ∃ us₁ us₂ q, us = us₁ ++ us₂ ∧ P = joinUnits us₁ ++ q ∧
      findBlankLine q = none ∧ q ++ R = joinUnits us₂
  | [], P, R, _, h => by
    rw [joinUnits_nil] at h
    obtain ⟨hP, hR⟩ := List.append_eq_nil.mp h
    exact ⟨[], [], [], rfl, by simp [joinUnits_nil, hP], by simp [findBlankLine],
      by simp [joinUnits_nil, hP, hR]⟩
  | u :: us', P, R, hwf, h => by
    by_cases hlen : P.length ≤ u.length + 1
    · refine ⟨[], u :: us', P, rfl, by simp [joinUnits_nil], ?_, by rw [h]⟩
      have hPtake : P = ((u ++ ['\n']) ++ ('\n' :: joinUnits us')).take P.length := by
        have h1 : (P ++ R).take P.length = P := List.take_left P R
        have h2 : joinUnits (u :: us') = (u ++ ['\n']) ++ ('\n' :: joinUnits us') := by
          rw [joinUnits_cons]; simp [unitOf]
        rw [← h2, ← h, h1]
      have hPu : P = (u ++ ['\n']).take P.length := by
        rw [hPtake, List.take_append_eq_append_take]
        have : P.length - (u ++ ['\n']).length = 0 := by simp; omega
        rw [this]
        simp
      rw [hPu]
      exact findBlankLine_take _ (findBlankLine_append_nl u (hwf u (by simp))) _
    · have hge : u.length + 2 ≤ P.length := by omega
      have hPu : P.take (u.length + 2) = unitOf u := by
        have h1 : (P ++ R).take (u.length + 2) = P.take (u.length + 2) := by
          rw [List.take_append_eq_append_take]
          have : u.length + 2 - P.length = 0 := by omega
          rw [this]
          simp
        have h2 : (joinUnits (u :: us')).take (u.length + 2) = unitOf u := by
          rw [joinUnits_cons]
          have hl : u.length + 2 = (unitOf u).length := (unitOf_length u).symm
          rw [hl, List.take_left]
        rw [← h1, h, h2]
      have hPsplit : P = unitOf u ++ P.drop (u.length + 2) := by
        conv_lhs => rw [← List.take_append_drop (u.length + 2) P]
        rw [hPu]
      have htail : P.drop (u.length + 2) ++ R = joinUnits us' := by
        have := h
        rw [hPsplit, joinUnits_cons, List.append_assoc] at this
        exact List.append_cancel_left this
      obtain ⟨us₁, us₂, q, h1, h2, h3, h4⟩ :=
        units_decomp us' (P.drop (u.length + 2)) R (fun g hg => hwf g (by simp [hg])) htail
      refine ⟨u :: us₁, us₂, q, by simp [h1], ?_, h3, h4⟩
      rw [joinUnits_cons, List.append_assoc, ← h2]
      exact hPsplit

theorem feed_empty (mid : Int) : ∀ (css : List (List Char)) (ft : List Char)
    (effs : List Effect), (∀ c ∈ css, c = []) →
    feedChunks mid ⟨[], ft, effs⟩ css = ⟨[], ft, effs⟩
  | [], ft, effs, _ => rfl
  | c :: css, ft, effs, hc => by
    have hc0 : c = [] := hc c (by simp)
    have hdrain : drainFrames mid ⟨[] ++ c, ft, effs⟩ = ⟨[], ft, effs⟩ := by
      rw [drainFrames_eq]
      simp [hc0, findBlankLine]
    show feedChunks mid (drainFrames mid ⟨[] ++ c, ft, effs⟩) css = _
    rw [hdrain]
    exact feed_empty mid css ft effs (fun g hg => hc g (by simp [hg]))

/-- Feeding chunks whose concatenation (after a boundary-free buffered
remainder) forms a transcript of non-breaking units consumes everything. -/
theorem feed_nonbrk (mid : Int) : ∀ (css : List (List Char))
    (ds : List (List Char)) (b ft : List Char) (effs : List Effect),
    (∀ f ∈ ds, wfFrame f ∧ frameClass f ≠ FrameClass.stopF) →
    b ++ css.flatten = joinUnits ds →
    findBlankLine b = none →
    feedChunks mid ⟨b, ft, effs⟩ css =
      ⟨[], (stepFold mid ft ds).1, effs ++ (stepFold mid ft ds).2⟩
  | [], ds, b, ft, effs, hwf, hjoin, hb => by
    rw [List.flatten_nil, List.append_nil] at hjoin
    rcases ds with - | ⟨d, ds'⟩
    · rw [joinUnits_nil] at hjoin
      subst hjoin
      simp [feedChunks, stepFold]
    · exfalso
      rw [joinUnits_cons] at hjoin
      have : findBlankLine b ≠ none := by
        rw [hjoin]
        have hu : unitOf d ++ joinUnits ds' = d ++ '\n' :: '\n' :: joinUnits ds' := by
          simp [unitOf]
        rw [hu]
        exact findBlankLine_contains d (joinUnits ds')
      exact this hb
  | c :: css, ds, b, ft, effs, hwf, hjoin, hb => by
    have hP : (b ++ c) ++ css.flatten = joinUnits ds := by
      rw [List.append_assoc]
      simpa using hjoin
    obtain ⟨us₁, us₂, q, hsplit, hPdec, hqnone, hqR⟩ :=
      units_decomp ds (b ++ c) css.flatten (fun u hu => (hwf u hu).1) hP
    have hwf₁ : ∀ f ∈ us₁, wfFrame f ∧ frameClass f ≠ FrameClass.stopF :=
      fun f hf => hwf f (by rw [hsplit]; exact List.mem_append_left _ hf)
    have hwf₂ : ∀ f ∈ us₂, wfFrame f ∧ frameClass f ≠ FrameClass.stopF :=
      fun f hf => hwf f (by rw [hsplit]; exact List.mem_append_right _ hf)
    show feedChunks mid (drainFrames mid ⟨b ++ c, ft, effs⟩) css = _
    rw [hPdec, drain_nonbrk mid us₁ q ft effs hwf₁ hqnone,
      feed_nonbrk mid css us₂ q _ _ hwf₂ hqR hqnone, hsplit,
      stepFold_append mid us₁ us₂ ft]
    simp [List.append_assoc]

/-- Feeding chunks that form a transcript of non-breaking units followed by
one terminated `message_stop` unit: all deltas are sent, then the single
final update, and the buffer ends empty. -/
theorem feed_stop (mid : Int) : ∀ (css : List (List Char))
    (ds : List (List Char)) (sf b ft : List Char) (effs : List Effect),
    (∀ f ∈ ds, wfFrame f ∧ frameClass f ≠ FrameClass.stopF) →
    wfFrame sf → frameClass sf = FrameClass.stopF →
    b ++ css.flatten = joinUnits ds ++ unitOf sf →
    findBlankLine b = none →
    feedChunks mid ⟨b, ft, effs⟩ css =
      ⟨[], (stepFold mid ft ds).1,
        effs ++ (stepFold mid ft ds).2 ++
          [Effect.send mid (stepFold mid ft ds).1 true]⟩
  | [], ds, sf, b, ft, effs, hwf, hsf, hsfc, hjoin, hb => by
    exfalso
    rw [List.flatten_nil, List.append_nil] at hjoin
    have : findBlankLine b ≠ none := by
      rw [hjoin]
      have : joinUnits ds ++ unitOf sf = (joinUnits ds ++ sf) ++ '\n' :: '\n' :: [] := by
        simp [unitOf]
      rw [this]
      exact findBlankLine_contains _ _
    exact this hb
  | c :: css, ds, sf, b, ft, effs, hwf, hsf, hsfc, hjoin, hb => by
    have hP : (b ++ c) ++ css.flatten = joinUnits (ds ++ [sf]) := by
      rw [List.append_assoc, joinUnits_append]
      have : joinUnits [sf] = unitOf sf := by
        rw [joinUnits_cons, joinUnits_nil, List.append_nil]
      rw [this]
      simpa using hjoin
    have hallwf : ∀ u ∈ ds ++ [sf], wfFrame u := by
      intro u hu
      rcases List.mem_append.mp hu with h | h
      · exact (hwf u h).1
      · simp at h; subst h; exact hsf
    obtain ⟨us₁, us₂, q, hsplit, hPdec, hqnone, hqR⟩ :=
      units_decomp (ds ++ [sf]) (b ++ c) css.flatten hallwf hP
    show feedChunks mid (drainFrames mid ⟨b ++ c, ft, effs⟩) css = _
    rcases us₂ with - | ⟨u2, us₂'⟩
    · -- everything through the stop unit was inside `b ++ c`
      rw [List.append_nil] at hsplit
      rw [joinUnits_nil] at hqR
      obtain ⟨hq0, hR0⟩ := List.append_eq_nil.mp hqR
      subst hq0
      rw [hPdec, ← hsplit, List.append_nil]
      have hbufeq : joinUnits (ds ++ [sf]) = joinUnits ds ++ (unitOf sf ++ []) := by
        rw [joinUnits_append]
        have : joinUnits [sf] = unitOf sf := by
          rw [joinUnits_cons, joinUnits_nil, List.append_nil]
        rw [this, List.append_nil]
      rw [hbufeq, drain_stop mid ds sf [] ft effs hwf hsf hsfc]
      exact feed_empty mid css _ _ (List.flatten_eq_nil_iff.mp hR0)
    · -- the stop unit is still (partly) ahead
      have hsplit' : ∃ ds₂, u2 :: us₂' = ds₂ ++ [sf] ∧ ds = us₁ ++ ds₂ := by
        have hne : u2 :: us₂' ≠ [] := by simp
        have hlast : u2 :: us₂' = (u2 :: us₂').dropLast ++ [(u2 :: us₂').getLast hne] := by
          rw [List.dropLast_append_getLast]
        have hcat : (us₁ ++ (u2 :: us₂').dropLast) ++ [(u2 :: us₂').getLast hne] =
            ds ++ [sf] := by
          rw [List.append_assoc, ← hlast]
          exact hsplit.symm
        have hinj := List.append_inj' hcat (by simp)
        have hlasteq : (u2 :: us₂').getLast hne = sf := by
          have := hinj.2
          simpa using this
        refine ⟨(u2 :: us₂').dropLast, ?_, hinj.1.symm⟩
        conv_lhs => rw [hlast]
        rw [hlasteq]
      obtain ⟨ds₂, hus₂, hds⟩ := hsplit'
      have hwf₁ : ∀ f ∈ us₁, wfFrame f ∧ frameClass f ≠ FrameClass.stopF :=
        fun f hf => hwf f (by rw [hds]; exact List.mem_append_left _ hf)
      have hwf₂ : ∀ f ∈ ds₂, wfFrame f ∧ frameClass f ≠ FrameClass.stopF :=
        fun f hf => hwf f (by rw [hds]; exact List.mem_append_right _ hf)
      have hqR' : q ++ css.flatten = joinUnits ds₂ ++ unitOf sf := by
        rw [hqR, hus₂, joinUnits_append]
        have : joinUnits [sf] = unitOf sf := by
          rw [joinUnits_cons, joinUnits_nil, List.append_nil]
        rw [this]
      rw [hPdec, drain_nonbrk mid us₁ q ft effs hwf₁ hqnone,
        feed_stop mid css ds₂ sf q _ _ hwf₂ hsf hsfc hqR' hqnone, hds,
        stepFold_append mid us₁ ds₂ ft]
      simp [List.append_assoc]

theorem frameTextB_eq_some {f t : List Char} :
    frameTextB f = some t ↔ frameClass f = FrameClass.deltaText t := by
  unfold frameTextB
  rcases frameClass f <;> simp

theorem stepFold_delta (mid : Int) : ∀ (fs : List (List Char)) (ft : List Char),
    (∀ f ∈ fs, (frameTextB f).isSome) →
    stepFold mid ft fs =
      (ft ++ (fs.map textOf).flatten, deltaSends mid ft (fs.map textOf))
  | [], ft, _ => by simp [stepFold, deltaSends]
  | f :: fs, ft, h => by
    obtain ⟨t, ht⟩ := Option.isSome_iff_exists.mp (h f (by simp))
    have hcls : frameClass f = FrameClass.deltaText t := frameTextB_eq_some.mp ht
    have htext : textOf f = t := by simp [textOf, ht]
    have hpf : processFrame mid ft f =
        ⟨ft ++ t, [Effect.send mid (ft ++ t) false], false⟩ := by
      rw [processFrame_class, hcls]
    simp only [stepFold, hpf, List.map_cons, htext,
      stepFold_delta mid fs (ft ++ t) (fun g hg => h g (by simp [hg]))]
    simp [deltaSends]

theorem deltaSends_nonfinal (mid : Int) : ∀ (ts : List (List Char)) (ft : List Char)
    (e : Effect), e ∈ deltaSends mid ft ts → ∃ u, e = Effect.send mid u false
  | [], _, e, h => by simp [deltaSends] at h
  | t :: ts, ft, e, h => by
    rcases (by simpa [deltaSends] using h :
        e = Effect.send mid (ft ++ t) false ∨ e ∈ deltaSends mid (ft ++ t) ts) with h | h
    · exact ⟨ft ++ t, h⟩
    · exact deltaSends_nonfinal mid ts (ft ++ t) e h

/-- Processing byte chunks that all decode as UTF-8 is the same as feeding
the decoded text chunks; later events are then handled from the resulting
state. -/
theorem runStream_decodes (mid : Int) : ∀ (bss : List (List Nat))
    (css : List (List Char)) (st : LoopState) (tail : List InEvent),
    bss.map utf8Decode? = css.map some →
    runStream mid st (bss.map InEvent.chunk ++ tail) =
      runStream mid (feedChunks mid st css) tail
  | [], css, st, tail, h => by
    rcases css with - | ⟨c, cs⟩
    · simp [feedChunks]
    · simp at h
  | b :: bss, css, st, tail, h => by
    rcases css with - | ⟨c, cs⟩
    · simp at h
    · simp only [List.map_cons, List.cons.injEq] at h
      simp only [List.map_cons, List.cons_append, runStream, h.1]
      exact runStream_decodes mid bss cs _ tail h.2

theorem sendTexts_append : ∀ (xs ys : List Effect),
    sendTexts (xs ++ ys) = sendTexts xs ++ sendTexts ys
  | [], ys => rfl
  | e :: xs, ys => by
    rcases e <;> simp [sendTexts, sendTexts_append xs ys]

theorem chainB_snoc : ∀ (l : List (List Char)) (hne : l ≠ []) (b : List Char),
    chainB l = true → isPreB (l.getLast hne) b = true → chainB (l ++ [b]) = true
  | [], hne, _, _, _ => absurd rfl hne
  | [x], _, b, _, hpre => by
    simp only [List.getLast] at hpre
    simp [chainB, hpre]
  | x :: y :: rest, _, b, hch, hpre => by
    simp only [chainB, Bool.and_eq_true] at hch
    have h2 := chainB_snoc (y :: rest) (by simp) b hch.2
      (by simpa [List.getLast] using hpre)
    simp only [List.cons_append] at h2 ⊢
    show (isPreB x y && chainB (y :: (rest ++ [b]))) = true
    rw [Bool.and_eq_true]
    exact ⟨hch.1, h2⟩

theorem chainB_replace_last : ∀ (xs : List (List Char)) (a b : List Char),
    chainB (xs ++ [a]) = true → isPreB a b = true → chainB (xs ++ [b]) = true
  | [], a, b, _, _ => by simp [chainB]
  | [x], a, b, hch, hpre => by
    simp only [List.cons_append, List.nil_append, chainB, Bool.and_eq_true] at hch
    show (isPreB x b && chainB [b]) = true
    rw [Bool.and_eq_true]
    exact ⟨isPreB_trans hch.1 hpre, rfl⟩
  | x :: x' :: xs, a, b, hch, hpre => by
    simp only [List.cons_append, chainB, Bool.and_eq_true] at hch
    have h2 := chainB_replace_last (x' :: xs) a b hch.2 hpre
    simp only [List.cons_append] at h2 ⊢
    show (isPreB x x' && chainB (x' :: (xs ++ [b]))) = true
    rw [Bool.and_eq_true]
    exact ⟨hch.1, h2⟩

theorem chainB_dropLastEl : ∀ (xs : List (List Char)) (a : List Char),
    chainB (xs ++ [a]) = true → chainB xs = true
  | [], _, _ => rfl
  | [x], _, _ => rfl
  | x :: x' :: xs, a, hch => by
    simp only [List.cons_append, chainB, Bool.and_eq_true] at hch
    have h2 := chainB_dropLastEl (x' :: xs) a (by
      simpa [List.cons_append] using hch.2)
    show (isPreB x x' && chainB (x' :: xs)) = true
    rw [Bool.and_eq_true]
    exact ⟨hch.1, h2⟩

theorem chainB_after_send {S : List (List Char)} {ft ft' : List Char}
    (h : chainB (S ++ [ft]) = true) (hpre : isPreB ft ft' = true) :
    chainB (S ++ [ft', ft']) = true := by
  have h1 : chainB (S ++ [ft']) = true := chainB_replace_last S ft ft' h hpre
  have h2 := chainB_snoc (S ++ [ft']) (by simp) ft' h1
    (by rw [List.getLast_append]; exact isPreB_refl ft')
  simpa using h2

theorem sendInvP_send {effs : List Effect} {ft : List Char}
    (h : sendInvP effs ft) (mid : Int) (t : List Char) (b : Bool) :
    sendInvP (effs ++ [Effect.send mid (ft ++ t) b]) (ft ++ t) := by
  unfold sendInvP at h ⊢
  rw [sendTexts_append]
  have hst : sendTexts [Effect.send mid (ft ++ t) b] = [ft ++ t] := rfl
  rw [hst]
  have := chainB_after_send h (isPreB_append ft t)
  simpa using this

theorem sendInvP_log {effs : List Effect} {ft : List Char}
    (h : sendInvP effs ft) (e : Effect) (he : sendTexts [e] = []) :
    sendInvP (effs ++ [e]) ft := by
  unfold sendInvP at h ⊢
  rw [sendTexts_append, he, List.append_nil]
  exact h

theorem processFrame_inv {effs : List Effect} {ft : List Char}
    (h : sendInvP effs ft) (mid : Int) (frame : List Char) :
    sendInvP (effs ++ (processFrame mid ft frame).effs)
      (processFrame mid ft frame).full_text := by
  rw [processFrame_class]
  rcases hcls : frameClass frame with t | - | - | - | -
  · exact sendInvP_send h mid t false
  · simpa using h
  · have := sendInvP_send h mid [] true
    simpa using this
  · exact sendInvP_log h Effect.logUnknown rfl
  · refine sendInvP_log h _ ?_
    unfold failEffect
    cases anthropicDecodeError (cleanErrorStage (cleanFrame frame)) <;> rfl

theorem drainF_inv (mid : Int) : ∀ (fuel : Nat) (st : LoopState),
    sendInvP st.effects st.full_text →
    sendInvP (drainF mid fuel st).effects (drainF mid fuel st).full_text
  | 0, st, h => h
  | Nat.succ fuel, st, h => by
    show sendInvP (drainF mid (Nat.succ fuel) st).effects _
    rw [drainF]
    cases hfind : findBlankLine st.buffer with
    | none => exact h
    | some i =>
      simp only
      by_cases hb : (processFrame mid st.full_text (st.buffer.take i)).brk
      · rw [if_pos hb]
        exact processFrame_inv h mid _
      · rw [if_neg hb]
        exact drainF_inv mid fuel _ (processFrame_inv h mid _)

theorem runStream_inv (mid : Int) : ∀ (events : List InEvent) (st : LoopState),
    sendInvP st.effects st.full_text →
    sendInvP (runStream mid st events).st.effects
      (runStream mid st events).st.full_text
  | [], st, h => h
  | InEvent.chunk bs :: rest, st, h => by
    show sendInvP (runStream mid st (InEvent.chunk bs :: rest)).st.effects _
    rw [runStream]
    cases utf8Decode? bs with
    | none => exact h
    | some s =>
      exact runStream_inv mid rest _ (drainF_inv mid _ _ h)
  | InEvent.chunkErr :: _, st, h => h
  | InEvent.cancel :: _, st, h => by
    show sendInvP
      (runStream mid st (InEvent.cancel :: _)).st.effects _
    rw [runStream]
    have := sendInvP_send h mid [] true
    simpa using this

/-- C1 (amended): for every well-formed provider transcript — a sequence of
text-delta frames each terminated by a blank line, followed by a terminated
`message_stop` frame — and for every way of splitting the transcript's
characters into chunks (each chunk arriving as its UTF-8 bytes), the
decoder loop of `chat_stream` produces a final `cumulative_text` equal to
the concatenation of every delta fragment in order, returns without error,
and emits exactly one `is_final = true` update, last: the update sequence
is precisely the cumulative non-final update per fragment followed by the
single final update. -/
theorem chat_stream_reconstructs_transcript (mid : Int)
    (ds : List (List Char)) (sf : List Char)
    (bss : List (List Nat)) (css : List (List Char))
    (hds : ∀ f ∈ ds, wfFrame f ∧ (frameTextB f).isSome = true)
    (hsf : wfFrame sf) (hsfc : frameClass sf = FrameClass.stopF)
    (hdec : bss.map utf8Decode? = css.map some)
    (hsplit : css.flatten = joinUnits ds ++ unitOf sf) :
    runStream mid initState (bss.map InEvent.chunk) =
      ⟨⟨[], (ds.map textOf).flatten,
        deltaSends mid [] (ds.map textOf) ++
          [Effect.send mid ((ds.map textOf).flatten) true]⟩, Outcome.ok⟩ ∧
    ∀ e ∈ deltaSends mid [] (ds.map textOf), ∃ u, e = Effect.send mid u false := by
  constructor
  · have hbridge := runStream_decodes mid bss css initState [] hdec
    rw [List.append_nil] at hbridge
    rw [hbridge]
    have hnb : ∀ f ∈ ds, wfFrame f ∧ frameClass f ≠ FrameClass.stopF := by
      intro f hf
      refine ⟨(hds f hf).1, ?_⟩
      obtain ⟨t, ht⟩ := Option.isSome_iff_exists.mp (hds f hf).2
      rw [frameTextB_eq_some.mp ht]
      simp
    have hfeed := feed_stop mid css ds sf [] [] [] hnb hsf hsfc
      (by simpa using hsplit) rfl
    have hsd := stepFold_delta mid ds [] (fun f hf => (hds f hf).2)
    rw [hsd] at hfeed
    show runStream mid (feedChunks mid ⟨[], [], []⟩ css) [] = _
    rw [hfeed]
    simp [runStream]
  · exact fun e he => deltaSends_nonfinal mid (ds.map textOf) [] e he

/-- C1 (counterexample to the claim as stated): a well-formed transcript —
one text-delta frame whose fragment is `"é"` plus a terminated
`message_stop` frame — split at a *byte* boundary inside the two-byte
UTF-8 encoding of `'é'`.  The decoder aborts with an error on the very
first chunk: no update is emitted at all, so the final cumulative text is
not the fragment concatenation and no `is_final = true` update exists. -/
theorem chat_stream_byte_split_counterexample :
    wfFrame c1ceFrame ∧ frameTextB c1ceFrame = some ['é'] ∧
    wfFrame c1ceStop ∧ frameClass c1ceStop = FrameClass.stopF ∧
    c1ceBytes1 ++ c1ceBytes2 = utf8Encode (joinUnits [c1ceFrame] ++ unitOf c1ceStop) ∧
    runStream 1 initState [InEvent.chunk c1ceBytes1, InEvent.chunk c1ceBytes2] =
      ⟨initState, Outcome.errUtf8⟩ :=
  ⟨by decide, by decide, by decide, by decide, by decide, by decide⟩

/-- Witness for `chat_stream_reconstructs_transcript`: a one-fragment
transcript split mid-frame at character position 40. -/
theorem chat_stream_reconstructs_transcript_witness :
    (∀ f ∈ [c1Frame1], wfFrame f ∧ (frameTextB f).isSome = true) ∧
    wfFrame c1Stop ∧ frameClass c1Stop = FrameClass.stopF ∧
    ([c1Bytes1, c1Bytes2].map utf8Decode? = [c1Chunk1, c1Chunk2].map some) ∧
    ([c1Chunk1, c1Chunk2].flatten = joinUnits [c1Frame1] ++ unitOf c1Stop) ∧
    (runStream 5 initState ([c1Bytes1, c1Bytes2].map InEvent.chunk) =
      ⟨⟨[], (([c1Frame1]).map textOf).flatten,
        deltaSends 5 [] (([c1Frame1]).map textOf) ++
          [Effect.send 5 ((([c1Frame1]).map textOf).flatten) true]⟩, Outcome.ok⟩ ∧
     ∀ e ∈ deltaSends 5 [] (([c1Frame1]).map textOf),
       ∃ u, e = Effect.send 5 u false) :=
  ⟨by decide, by decide, by decide, by decide, by decide,
   chat_stream_reconstructs_transcript 5 [c1Frame1] c1Stop
     [c1Bytes1, c1Bytes2] [c1Chunk1, c1Chunk2]
     (by decide) (by decide) (by decide) (by decide) (by decide)⟩

/-- C3 (confirmed): a stream consisting of one structurally undecodable
frame between two valid text-delta frames (split into byte chunks in any
way) does not abort: the loop records the diagnostic effect of the
`Err(_)` branch — which first attempts the secondary error-frame decode
and logs either the provider error or the raw frame — and continues; the
run ends without error and the final `cumulative_text` is the
concatenation of the two valid fragments only. -/
theorem chat_stream_corrupt_frame_tolerated (mid : Int)
    (f1 bad f2 t1 t2 : List Char)
    (bss : List (List Nat)) (css : List (List Char))
    (h1 : wfFrame f1) (h1c : frameClass f1 = FrameClass.deltaText t1)
    (hb : wfFrame bad) (hbc : frameClass bad = FrameClass.badF)
    (h2 : wfFrame f2) (h2c : frameClass f2 = FrameClass.deltaText t2)
    (hdec : bss.map utf8Decode? = css.map some)
    (hsplit : css.flatten = joinUnits [f1, bad, f2]) :
    runStream mid initState (bss.map InEvent.chunk) =
      ⟨⟨[], t1 ++ t2,
        [Effect.send mid t1 false, failEffect (cleanFrame bad),
         Effect.send mid (t1 ++ t2) false]⟩, Outcome.ok⟩ := by
  have hbridge := runStream_decodes mid bss css initState [] hdec
  rw [List.append_nil] at hbridge
  rw [hbridge]
  have hnb : ∀ f ∈ [f1, bad, f2], wfFrame f ∧ frameClass f ≠ FrameClass.stopF := by
    intro f hf
    simp only [List.mem_cons, List.not_mem_nil, or_false] at hf
    rcases hf with rfl | rfl | rfl
    · exact ⟨h1, by rw [h1c]; simp⟩
    · exact ⟨hb, by rw [hbc]; simp⟩
    · exact ⟨h2, by rw [h2c]; simp⟩
  have hfeed := feed_nonbrk mid css [f1, bad, f2] [] [] [] hnb
    (by simpa using hsplit) rfl
  have hpf1 : processFrame mid [] f1 = ⟨t1, [Effect.send mid t1 false], false⟩ := by
    rw [processFrame_class, h1c]; simp
  have hpfb : processFrame mid t1 bad =
      ⟨t1, [failEffect (cleanFrame bad)], false⟩ := by
    rw [processFrame_class, hbc]
  have hpf2 : processFrame mid t1 f2 =
      ⟨t1 ++ t2, [Effect.send mid (t1 ++ t2) false], false⟩ := by
    rw [processFrame_class, h2c]
  have hsteps : stepFold mid [] [f1, bad, f2] =
      (t1 ++ t2, [Effect.send mid t1 false, failEffect (cleanFrame bad),
        Effect.send mid (t1 ++ t2) false]) := by
    simp [stepFold, hpf1, hpfb, hpf2]
  rw [hsteps] at hfeed
  show runStream mid (feedChunks mid ⟨[], [], []⟩ css) [] = _
  rw [hfeed]
  simp [runStream]

/-- Witness for `chat_stream_corrupt_frame_tolerated`: fragments `"one"`
and `"two"` around the unparsable frame `data: \x7bgarbage`, fed as a
single byte chunk. -/
theorem chat_stream_corrupt_frame_tolerated_witness :
    wfFrame c3Frame1 ∧ frameClass c3Frame1 = FrameClass.deltaText ("one".toList) ∧
    wfFrame c3Bad ∧ frameClass c3Bad = FrameClass.badF ∧
    wfFrame c3Frame2 ∧ frameClass c3Frame2 = FrameClass.deltaText ("two".toList) ∧
    ([c3Bytes].map utf8Decode? =
      [joinUnits [c3Frame1, c3Bad, c3Frame2]].map some) ∧
    runStream 9 initState ([c3Bytes].map InEvent.chunk) =
      ⟨⟨[], "one".toList ++ "two".toList,
        [Effect.send 9 ("one".toList) false, failEffect (cleanFrame c3Bad),
         Effect.send 9 ("one".toList ++ "two".toList) false]⟩, Outcome.ok⟩ :=
  ⟨by decide, by decide, by decide, by decide, by decide, by decide, by decide,
   chat_stream_corrupt_frame_tolerated 9 c3Frame1 c3Bad c3Frame2
     ("one".toList) ("two".toList) [c3Bytes]
     [joinUnits [c3Frame1, c3Bad, c3Frame2]]
     (by decide) (by decide) (by decide) (by decide) (by decide) (by decide)
     (by decide) (by decide)⟩

/-- C4 (confirmed): whenever the cancellation token fires at the
suspension point of the outer select loop — after any prefix of valid
chunks — exactly one further update is sent, carrying the text accumulated
so far with `is_final = true`; no update follows it (whatever events would
have come next are never observed), and `chat_stream` returns `Ok`. -/
theorem chat_stream_cancel_final_update (mid : Int)
    (bss : List (List Nat)) (css : List (List Char)) (rest : List InEvent)
    (hdec : bss.map utf8Decode? = css.map some) :
    runStream mid initState (bss.map InEvent.chunk ++ InEvent.cancel :: rest) =
      ⟨⟨(feedChunks mid initState css).buffer,
        (feedChunks mid initState css).full_text,
        (feedChunks mid initState css).effects ++
          [Effect.send mid (feedChunks mid initState css).full_text true]⟩,
        Outcome.ok⟩ := by
  rw [runStream_decodes mid bss css initState (InEvent.cancel :: rest) hdec]
  rfl

/-- Witness for `chat_stream_cancel_final_update`: one delta chunk is
processed, then cancellation fires while further events (another chunk and
a transport error) are still pending; only the final update is added. -/
theorem chat_stream_cancel_final_update_witness :
    ([c4Bytes].map utf8Decode? = [joinUnits [c4Delta]].map some) ∧
    runStream 3 initState
      ([c4Bytes].map InEvent.chunk ++
        InEvent.cancel :: [InEvent.chunk c4Bytes, InEvent.chunkErr]) =
      ⟨⟨(feedChunks 3 initState [joinUnits [c4Delta]]).buffer,
        (feedChunks 3 initState [joinUnits [c4Delta]]).full_text,
        (feedChunks 3 initState [joinUnits [c4Delta]]).effects ++
          [Effect.send 3 (feedChunks 3 initState [joinUnits [c4Delta]]).full_text true]⟩,
        Outcome.ok⟩ :=
  ⟨by decide,
   chat_stream_cancel_final_update 3 [c4Bytes] [joinUnits [c4Delta]]
     [InEvent.chunk c4Bytes, InEvent.chunkErr] (by decide)⟩

/-- C8 (amended): for every input event stream — well-formed or not — the
updates sent on the output channel have monotonically growing
`cumulative_text`: each update's text extends (has as a prefix) the
previous update's text.  (The original claim's second half, that no update
follows the first `is_final = true` update, fails on this code: see the
counterexample.) -/
theorem chat_stream_monotone_updates (mid : Int) (events : List InEvent) :
    chainB (sendTexts (runStream mid initState events).st.effects) = true := by
  have h0 : sendInvP initState.effects initState.full_text := rfl
  have h := runStream_inv mid events initState h0
  exact chainB_dropLastEl _ _ h

/-- C8 (counterexample to the claim as stated): after `message_stop` the
code only `break`s the inner frame loop, so a delta frame arriving in a
later chunk still produces an update — here the update sequence is the
final update `("", is_final = true)` followed by a further update
`("Hi", is_final = false)`. -/
theorem chat_stream_update_after_final_counterexample :
    runStream 1 initState [InEvent.chunk c8StopBytes, InEvent.chunk c8DeltaBytes] =
      ⟨⟨[], "Hi".toList,
        [Effect.send 1 [] true, Effect.send 1 ("Hi".toList) false]⟩,
        Outcome.ok⟩ := by decide

/-- C9 (confirmed): an invalid-UTF-8 byte chunk — as arises when a
multi-byte character is split across chunk boundaries — is fatal: the run
stops at that chunk with an error, no further update (in particular no
`is_final = true` update) is emitted, and later events are never observed.
By contrast a frame-level structural decode failure is tolerated: it never
breaks the loop and leaves the accumulated text unchanged. -/
theorem chat_stream_invalid_utf8_fatal (mid : Int)
    (bss : List (List Nat)) (css : List (List Char)) (bad : List Nat)
    (rest : List InEvent)
    (hdec : bss.map utf8Decode? = css.map some)
    (hbad : utf8Decode? bad = none) :
    runStream mid initState (bss.map InEvent.chunk ++ InEvent.chunk bad :: rest) =
      ⟨feedChunks mid initState css, Outcome.errUtf8⟩ ∧
    ∀ (ft frame : List Char), frameClass frame = FrameClass.badF →
      (processFrame mid ft frame).brk = false ∧
      (processFrame mid ft frame).full_text = ft := by
  constructor
  · rw [runStream_decodes mid bss css initState (InEvent.chunk bad :: rest) hdec]
    rw [runStream, hbad]
  · intro ft frame hcls
    rw [processFrame_class, hcls]
    exact ⟨rfl, rfl⟩

/-- Witness for `chat_stream_invalid_utf8_fatal`: one valid delta chunk,
then the lone continuation byte `0xC3`; the whole-run effect list is the
single non-final update — no final update is ever emitted. -/
theorem chat_stream_invalid_utf8_fatal_witness :
    ([c9Bytes].map utf8Decode? = [joinUnits [c4Delta]].map some) ∧
    utf8Decode? [0xC3] = none ∧
    (runStream 2 initState
      ([c9Bytes].map InEvent.chunk ++ InEvent.chunk [0xC3] :: [InEvent.cancel]) =
      ⟨feedChunks 2 initState [joinUnits [c4Delta]], Outcome.errUtf8⟩ ∧
    ∀ (ft frame : List Char), frameClass frame = FrameClass.badF →
      (processFrame 2 ft frame).brk = false ∧
      (processFrame 2 ft frame).full_text = ft) :=
  ⟨by decide, by decide,
   chat_stream_invalid_utf8_fatal 2 [c9Bytes] [joinUnits [c4Delta]] [0xC3]
     [InEvent.cancel] (by decide) (by decide)⟩

example : shaK.take 4 = [0x428a2f98, 0x71374491, 0xb5c0fbcf, 0xe9b5dba5] := by
  decide

example : shaH0.take 2 = [0x6a09e667, 0xbb67ae85] := by decide

example :
    sha256Hex ("abc".toList) =
      ("ba7816bf8f01cfea414140de5dae2223b00361a396177a9cb410ff61f20015ad").toList := by
  decide

example :
    sha256Hex ([]) =
      ("e3b0c44298fc1c149afbf4c8996fb92427ae41e4649b934ca495991b7852b855").toList := by
  decide

example : base64Encode [77, 97, 110] = "TWFu".toList := by decide

example : base64Encode [77, 97] = "TWE=".toList := by decide

theorem ingest_ok_stored {op : IngestOp} {db : Db} {id : Int} {db1 : Db}
    (hrun : runIngest op db = Except.ok (id, db1)) :
    ∃ s, storedOf op = Except.ok s := by
  rcases op with ⟨fs, url⟩ | ⟨c, n, t⟩
  · simp only [runIngest, add_attachment_by_url] at hrun
    cases hcr : compute_reader fs url with
    | error e =>
      simp only [hcr] at hrun
      exact absurd hrun (by simp)
    | ok s => exact ⟨s, hcr⟩
  · exact ⟨c, rfl⟩

theorem ingest_found {op : IngestOp} {s : List Char} {db : Db}
    {a : MessageAttachment} (hs : storedOf op = Except.ok s)
    (hfound : read_by_attachment_hash db (sha256Hex s) = some a) :
    runIngest op db = Except.ok (a.id, db) := by
  rcases op with ⟨fs, url⟩ | ⟨c, n, t⟩
  · have hcr : compute_reader fs url = Except.ok s := hs
    simp only [runIngest, add_attachment_by_url, hcr, hfound]
  · have hc : c = s := by
      simpa [storedOf] using hs
    subst hc
    simp only [runIngest, add_attachment_content, hfound]

theorem ingest_cases {op : IngestOp} {s : List Char} {db : Db} {id : Int}
    {db1 : Db} (hs : storedOf op = Except.ok s)
    (hrun : runIngest op db = Except.ok (id, db1)) :
    (∃ a, read_by_attachment_hash db (sha256Hex s) = some a ∧
      id = a.id ∧ db1 = db) ∨
    (read_by_attachment_hash db (sha256Hex s) = none ∧ id = db.next_id ∧
      ∃ ty orig, db1 = ⟨db.rows ++
        [⟨db.next_id, -1, ty, some orig, some s, some (sha256Hex s),
          false, some 0⟩], db.next_id + 1⟩) := by
  rcases op with ⟨fs, url⟩ | ⟨c, n, t⟩
  · have hcr : compute_reader fs url = Except.ok s := hs
    simp only [runIngest, add_attachment_by_url, hcr] at hrun
    cases hl : read_by_attachment_hash db (sha256Hex s) with
    | some a =>
      simp only [hl, Except.ok.injEq, Prod.mk.injEq] at hrun
      exact Or.inl ⟨a, rfl, hrun.1.symm, hrun.2.symm⟩
    | none =>
      simp only [hl] at hrun
      by_cases hcimg : file_type_classify (mime_from_path url) = "image".toList
      · rw [if_pos hcimg] at hrun
        simp only [createAttachment, Except.ok.injEq, Prod.mk.injEq] at hrun
        exact Or.inr ⟨rfl, hrun.1.symm,
          AttachmentType.Image, url, hrun.2.symm⟩
      · rw [if_neg hcimg] at hrun
        by_cases hctxt : file_type_classify (mime_from_path url) = "text".toList
        · rw [if_pos hctxt] at hrun
          simp only [createAttachment, Except.ok.injEq, Prod.mk.injEq] at hrun
          exact Or.inr ⟨rfl, hrun.1.symm,
            AttachmentType.Text, url, hrun.2.symm⟩
        · rw [if_neg hctxt] at hrun
          exact absurd hrun (by simp)
  · have hc : c = s := by
      simpa [storedOf] using hs
    subst hc
    simp only [runIngest, add_attachment_content] at hrun
    cases hl : read_by_attachment_hash db (sha256Hex c) with
    | some a =>
      simp only [hl, Except.ok.injEq, Prod.mk.injEq] at hrun
      exact Or.inl ⟨a, rfl, hrun.1.symm, hrun.2.symm⟩
    | none =>
      simp only [hl] at hrun
      cases ht : AttachmentType.tryFrom t with
      | none =>
        simp only [ht] at hrun
        exact absurd hrun (by simp)
      | some ty =>
        simp only [ht, createAttachment, Except.ok.injEq, Prod.mk.injEq] at hrun
        exact Or.inr ⟨rfl, hrun.1.symm, ty, n, hrun.2.symm⟩

/-- C2 (confirmed, over the spec-modelled persistence primitives):
ingesting content with the same stored string twice — by path or inline,
in any combination — returns the same attachment id both times: the second
ingestion finds the row by `content_hash` and returns its id with the
store unchanged (no second row). -/
theorem attachment_dedup_idempotent (o1 o2 : IngestOp) (db db1 : Db)
    (s : List Char) (id : Int)
    (h1 : storedOf o1 = Except.ok s) (h2 : storedOf o2 = Except.ok s)
    (hrun : runIngest o1 db = Except.ok (id, db1)) :
    runIngest o2 db1 = Except.ok (id, db1) := by
  rcases ingest_cases h1 hrun with ⟨a, hl, hid, hdb⟩ | ⟨hl, hid, ty, orig, hdb1⟩
  · subst hdb
    subst hid
    exact ingest_found h2 hl
  · have hfound : read_by_attachment_hash db1 (sha256Hex s) =
        some ⟨db.next_id, -1, ty, some orig, some s, some (sha256Hex s),
          false, some 0⟩ := by
      unfold read_by_attachment_hash at hl ⊢
      rw [hdb1]
      simp only [List.find?_append, hl]
      simp
    have := ingest_found h2 hfound
    rw [this, hid]

/-- C5 (confirmed): any row created by an ingestion stores exactly the
computed content string and its `content_hash` is the hex SHA-256 digest
of that exact stored string; and for an image file the stored string is
the full `data:image/png;base64,<payload>` data URI built from the file's
bytes — the digest is over that string, not over the raw bytes. -/
theorem attachment_hash_matches_content (op : IngestOp) (db : Db) (id : Int)
    (db1 : Db) (hrun : runIngest op db = Except.ok (id, db1)) :
    (∀ r ∈ db1.rows, r ∉ db.rows →
      ∃ s, storedOf op = Except.ok s ∧ r.attachment_content = some s ∧
        r.attachment_hash = some (sha256Hex s)) ∧
    (∀ fs url bytes, fsRead? fs url = some bytes →
      extOf url = some ("png".toList) →
      compute_reader fs url =
        Except.ok (("data:image/png;base64,").toList ++ base64Encode bytes)) := by
  constructor
  · intro r hr hrnew
    obtain ⟨s, hs⟩ := ingest_ok_stored hrun
    rcases ingest_cases hs hrun with ⟨a, hl, hid, hdb⟩ | ⟨hl, hid, ty, orig, hdb1⟩
    · subst hdb
      exact absurd hr hrnew
    · subst hdb1
      simp only [List.mem_append, List.mem_singleton] at hr
      rcases hr with hr | hr
      · exact absurd hr hrnew
      · subst hr
        exact ⟨s, hs, rfl, rfl⟩
  · intro fs url bytes hb hext
    have hmime : mime_from_path url = "image/png".toList := by
      unfold mime_from_path
      rw [hext]
      rfl
    unfold compute_reader
    rw [hb]
    simp only [hmime]
    rw [if_pos (by decide), if_neg (by decide), if_pos (by decide)]

/-- Witness for `attachment_hash_matches_content`: a four-byte PNG file is
ingested into an empty store. -/
theorem attachment_hash_matches_content_witness :
    runIngest (IngestOp.fromPath c5Fs c5Url) ⟨[], 1⟩ = Except.ok (1, c5Db1) ∧
    ((∀ r ∈ c5Db1.rows, r ∉ (⟨[], 1⟩ : Db).rows →
      ∃ s, storedOf (IngestOp.fromPath c5Fs c5Url) = Except.ok s ∧
        r.attachment_content = some s ∧
        r.attachment_hash = some (sha256Hex s)) ∧
    (∀ fs url bytes, fsRead? fs url = some bytes →
      extOf url = some ("png".toList) →
      compute_reader fs url =
        Except.ok (("data:image/png;base64,").toList ++ base64Encode bytes))) :=
  ⟨by decide,
   attachment_hash_matches_content (IngestOp.fromPath c5Fs c5Url) ⟨[], 1⟩ 1 c5Db1
     (by decide)⟩

/-- Witness for `attachment_dedup_idempotent`: the PNG of the C5 scenario
is ingested by path and then the identical data-URI string is ingested
inline; the second call returns the same id on the unchanged store. -/
theorem attachment_dedup_idempotent_witness :
    storedOf (IngestOp.fromPath c5Fs c5Url) = Except.ok c5Stored ∧
    storedOf (IngestOp.inline c5Stored ("paste.txt".toList) 1) =
      Except.ok c5Stored ∧
    runIngest (IngestOp.fromPath c5Fs c5Url) ⟨[], 1⟩ = Except.ok (1, c5Db1) ∧
    runIngest (IngestOp.inline c5Stored ("paste.txt".toList) 1) c5Db1 =
      Except.ok (1, c5Db1) :=
  ⟨by decide, by decide, by decide,
   attachment_dedup_idempotent (IngestOp.fromPath c5Fs c5Url)
     (IngestOp.inline c5Stored ("paste.txt".toList) 1) ⟨[], 1⟩ c5Db1 c5Stored 1
     (by decide) (by decide) (by decide)⟩

/-- C6: the dedup sequence is *not* a single atomic transactional upsert —
it is two separate operations (`read_by_attachment_hash`, then `create`),
with no transactional boundary.  Interleaving the two steps of two callers
ingesting the identical content `"hello"` produces **two** rows with the
same `content_hash`, violating the at-most-one-row invariant the claim
asserts; run sequentially, the same two calls leave exactly one row. -/
theorem dedup_not_atomic :
    rowsWithHash (dedupRace ("hello".toList)) (sha256Hex ("hello".toList)) = 2 ∧
    rowsWithHash (dedupSeq ("hello".toList)) (sha256Hex ("hello".toList)) = 1 :=
  ⟨by decide, by decide⟩

/-- C7 (confirmed): `add_attachment_by_url` classifies by MIME major type:
a `.png` path is an image whose stored content is the full
`data:image/png;base64,` data URI (any created row has kind `Image`); a
`.txt` path is text whose stored content is the file's decoded text (any
created row has kind `Text`); a `.bin` path (MIME
`application/octet-stream`, neither `text/*` nor `image/*`) fails with
`UnsupportedType`; and an image subtype outside jpeg/png/gif/webp (here
`.bmp`) also fails with `UnsupportedType`. -/
theorem add_attachment_by_url_classification :
    (∀ fs url bytes, fsRead? fs url = some bytes →
      extOf url = some ("png".toList) →
      compute_reader fs url =
        Except.ok (("data:image/png;base64,").toList ++ base64Encode bytes) ∧
      ∀ db id db' r, add_attachment_by_url fs db url = Except.ok (id, db') →
        r ∈ db'.rows → r ∉ db.rows →
        r.attachment_type = AttachmentType.Image) ∧
    (∀ fs url bytes text, fsRead? fs url = some bytes →
      extOf url = some ("txt".toList) → utf8Decode? bytes = some text →
      compute_reader fs url = Except.ok text ∧
      ∀ db id db' r, add_attachment_by_url fs db url = Except.ok (id, db') →
        r ∈ db'.rows → r ∉ db.rows →
        r.attachment_type = AttachmentType.Text) ∧
    (∀ fs url bytes db, fsRead? fs url = some bytes →
      extOf url = some ("bin".toList) →
      add_attachment_by_url fs db url = Except.error AppErr.unsupportedType) ∧
    (∀ fs url bytes db, fsRead? fs url = some bytes →
      extOf url = some ("bmp".toList) →
      add_attachment_by_url fs db url = Except.error AppErr.unsupportedType) := by
  refine ⟨?_, ?_, ?_, ?_⟩
  · intro fs url bytes hb hext
    have hmime : mime_from_path url = "image/png".toList := by
      unfold mime_from_path
      rw [hext]
      rfl
    have hcr : compute_reader fs url =
        Except.ok (("data:image/png;base64,").toList ++ base64Encode bytes) := by
      unfold compute_reader
      rw [hb]
      simp only [hmime]
      rw [if_pos (by decide), if_neg (by decide), if_pos (by decide)]
    refine ⟨hcr, ?_⟩
    intro db id db' r hrun hr hrnew
    simp only [add_attachment_by_url, hcr] at hrun
    cases hl : read_by_attachment_hash db
        (sha256Hex (("data:image/png;base64,").toList ++ base64Encode bytes)) with
    | some a =>
      simp only [hl, Except.ok.injEq, Prod.mk.injEq] at hrun
      rw [← hrun.2] at hr
      exact absurd hr hrnew
    | none =>
      simp only [hl, hmime] at hrun
      rw [if_pos (by decide)] at hrun
      simp only [createAttachment, Except.ok.injEq, Prod.mk.injEq] at hrun
      rw [← hrun.2] at hr
      simp only [List.mem_append, List.mem_singleton] at hr
      rcases hr with hr | hr
      · exact absurd hr hrnew
      · rw [hr]
  · intro fs url bytes text hb hext hdec
    have hmime : mime_from_path url = "text/plain".toList := by
      unfold mime_from_path
      rw [hext]
      rfl
    have hcr : compute_reader fs url = Except.ok text := by
      unfold compute_reader
      rw [hb]
      simp only [hmime]
      rw [if_neg (by decide), if_pos (by decide), hdec]
    refine ⟨hcr, ?_⟩
    intro db id db' r hrun hr hrnew
    simp only [add_attachment_by_url, hcr] at hrun
    cases hl : read_by_attachment_hash db (sha256Hex text) with
    | some a =>
      simp only [hl, Except.ok.injEq, Prod.mk.injEq] at hrun
      rw [← hrun.2] at hr
      exact absurd hr hrnew
    | none =>
      simp only [hl, hmime] at hrun
      rw [if_neg (by decide), if_pos (by decide)] at hrun
      simp only [createAttachment, Except.ok.injEq, Prod.mk.injEq] at hrun
      rw [← hrun.2] at hr
      simp only [List.mem_append, List.mem_singleton] at hr
      rcases hr with hr | hr
      · exact absurd hr hrnew
      · rw [hr]
  · intro fs url bytes db hb hext
    have hmime : mime_from_path url = "application/octet-stream".toList := by
      unfold mime_from_path
      rw [hext]
      rfl
    have hcr : compute_reader fs url = Except.error AppErr.unsupportedType := by
      unfold compute_reader
      rw [hb]
      simp only [hmime]
      rw [if_neg (by decide), if_neg (by decide)]
    simp only [add_attachment_by_url, hcr]
  · intro fs url bytes db hb hext
    have hmime : mime_from_path url = "image/bmp".toList := by
      unfold mime_from_path
      rw [hext]
      rfl
    have hcr : compute_reader fs url = Except.error AppErr.unsupportedType := by
      unfold compute_reader
      rw [hb]
      simp only [hmime]
      rw [if_pos (by decide), if_neg (by decide), if_neg (by decide),
        if_neg (by decide), if_neg (by decide)]
    simp only [add_attachment_by_url, hcr]

/-- Witness for `add_attachment_by_url_classification`, on a filesystem
holding a `.png`, a `.txt`, a `.bin` and a `.bmp` file. -/
theorem add_attachment_by_url_classification_witness :
    (fsRead? c7Fs ("a/pic.png".toList) = some [1, 2, 3] ∧
      extOf ("a/pic.png".toList) = some ("png".toList) ∧
      compute_reader c7Fs ("a/pic.png".toList) =
        Except.ok (("data:image/png;base64,").toList ++ base64Encode [1, 2, 3])) ∧
    (fsRead? c7Fs ("a/note.txt".toList) = some (utf8Encode ("hi there".toList)) ∧
      extOf ("a/note.txt".toList) = some ("txt".toList) ∧
      compute_reader c7Fs ("a/note.txt".toList) = Except.ok ("hi there".toList)) ∧
    add_attachment_by_url c7Fs ⟨[], 1⟩ ("a/blob.bin".toList) =
      Except.error AppErr.unsupportedType ∧
    add_attachment_by_url c7Fs ⟨[], 1⟩ ("a/pic.bmp".toList) =
      Except.error AppErr.unsupportedType :=
  ⟨⟨by decide, by decide,
    (add_attachment_by_url_classification.1 c7Fs ("a/pic.png".toList) [1, 2, 3]
      (by decide) (by decide)).1⟩,
   ⟨by decide, by decide,
    (add_attachment_by_url_classification.2.1 c7Fs ("a/note.txt".toList)
      (utf8Encode ("hi there".toList)) ("hi there".toList)
      (by decide) (by decide) (by decide)).1⟩,
   add_attachment_by_url_classification.2.2.1 c7Fs ("a/blob.bin".toList)
     [0, 1] ⟨[], 1⟩ (by decide) (by decide),
   add_attachment_by_url_classification.2.2.2 c7Fs ("a/pic.bmp".toList)
     [66, 77] ⟨[], 1⟩ (by decide) (by decide)⟩

/-- C10 (confirmed): both `chat` and `chat_stream` unconditionally
`unwrap()` the `"api_key"` configuration entry — every configuration
without that key panics instead of returning a typed error — while an
absent `"endpoint"` falls back to the default
`https://api.anthropic.com`. -/
theorem api_key_unwrap_panics :
    (∀ cfg, config_map_get cfg ("api_key".toList) = none →
      chatRequestTarget cfg = PanicOr.panicked ∧
      chatStreamRequestTarget cfg = PanicOr.panicked) ∧
    (∀ cfg k, config_map_get cfg ("api_key".toList) = some k →
      config_map_get cfg ("endpoint".toList) = none →
      chatRequestTarget cfg =
        PanicOr.ok ⟨("https://api.anthropic.com/v1/messages").toList, k⟩ ∧
      chatStreamRequestTarget cfg =
        PanicOr.ok ⟨("https://api.anthropic.com/v1/messages").toList, k⟩) := by
  constructor
  · intro cfg h
    constructor
    · unfold chatRequestTarget
      rw [h]
    · unfold chatStreamRequestTarget
      rw [h]
  · intro cfg k hk he
    have hdef :
        trimEndSlashes ((config_map_get cfg ("endpoint".toList)).getD
            ("https://api.anthropic.com".toList)) ++ ("/v1/messages".toList) =
          ("https://api.anthropic.com/v1/messages").toList := by
      rw [he]
      decide
    constructor
    · unfold chatRequestTarget
      simp only [hk, hdef]
    · unfold chatStreamRequestTarget
      simp only [hk, hdef]

/-- Witness for `api_key_unwrap_panics`: the empty configuration panics in
both operations; a configuration holding only `api_key` succeeds with the
default endpoint. -/
theorem api_key_unwrap_panics_witness :
    (config_map_get [] ("api_key".toList) = none ∧
      chatRequestTarget [] = PanicOr.panicked ∧
      chatStreamRequestTarget [] = PanicOr.panicked) ∧
    (config_map_get c10Cfg ("api_key".toList) = some ("sk-test".toList) ∧
      config_map_get c10Cfg ("endpoint".toList) = none ∧
      chatRequestTarget c10Cfg =
        PanicOr.ok ⟨("https://api.anthropic.com/v1/messages").toList,
          "sk-test".toList⟩ ∧
      chatStreamRequestTarget c10Cfg =
        PanicOr.ok ⟨("https://api.anthropic.com/v1/messages").toList,
          "sk-test".toList⟩) :=
  ⟨⟨by decide,
    (api_key_unwrap_panics.1 [] (by decide)).1,
    (api_key_unwrap_panics.1 [] (by decide)).2⟩,
   ⟨by decide, by decide,
    (api_key_unwrap_panics.2 c10Cfg ("sk-test".toList) (by decide) (by decide)).1,
    (api_key_unwrap_panics.2 c10Cfg ("sk-test".toList) (by decide) (by decide)).2⟩⟩

end Aipp

